import Mathlib

/-!
Verification development for the `epcis2.js` entity model and document
validation engine.

The source is JavaScript; the embedding below represents JSON-shaped JS
values as the inductive `JSValue`, JS objects as ordered association lists
of own properties, and each entity class as a structure whose operations
mirror the methods of the source file.  Operations that can throw a
`TypeError` in JS (e.g. reading `.length` of `undefined`) are embedded as
`Option`-valued functions, `none` standing for the throw.
-/

/-- A JSON-shaped JavaScript value.  Numbers are represented by their
source text (every number literal occurring in the properties under
study is only ever compared for equality, never computed with). -/
inductive JSValue where
  | str : String → JSValue
  | num : Int → JSValue
  | bool : Bool → JSValue
  | null : JSValue
  | arr : List JSValue → JSValue
  | obj : List (String × JSValue) → JSValue

/- Structural (deep, order-sensitive) equality test on `JSValue`,
written by hand because `deriving DecidableEq` does not handle the
nested inductive. -/
mutual

def JSValue.beq : JSValue → JSValue → Bool
  | .str a, .str b => a = b
  | .num a, .num b => a = b
  | .bool a, .bool b => a = b
  | .null, .null => true
  | .arr a, .arr b => JSValue.beqList a b
  | .obj a, .obj b => JSValue.beqObj a b
  | _, _ => false

def JSValue.beqList : List JSValue → List JSValue → Bool
  | [], [] => true
  | a :: as, b :: bs => JSValue.beq a b && JSValue.beqList as bs
  | _, _ => false

def JSValue.beqObj : List (String × JSValue) → List (String × JSValue) → Bool
  | [], [] => true
  | (k, v) :: as, (k', v') :: bs => k = k' && JSValue.beq v v' && JSValue.beqObj as bs
  | _, _ => false

end

mutual

theorem JSValue.beq_iff : ∀ a b : JSValue, JSValue.beq a b = true ↔ a = b
  | .str a, .str b => by simp [JSValue.beq]
  | .str _, .num _ | .str _, .bool _ | .str _, .null | .str _, .arr _ | .str _, .obj _ => by
      simp [JSValue.beq]
  | .num _, .str _ => by simp [JSValue.beq]
  | .num a, .num b => by simp [JSValue.beq]
  | .num _, .bool _ | .num _, .null | .num _, .arr _ | .num _, .obj _ => by
      simp [JSValue.beq]
  | .bool _, .str _ | .bool _, .num _ => by simp [JSValue.beq]
  | .bool a, .bool b => by simp [JSValue.beq]
  | .bool _, .null | .bool _, .arr _ | .bool _, .obj _ => by simp [JSValue.beq]
  | .null, .str _ | .null, .num _ | .null, .bool _ => by simp [JSValue.beq]
  | .null, .null => by simp [JSValue.beq]
  | .null, .arr _ | .null, .obj _ => by simp [JSValue.beq]
  | .arr _, .str _ | .arr _, .num _ | .arr _, .bool _ | .arr _, .null => by
      simp [JSValue.beq]
  | .arr a, .arr b => by
      rw [JSValue.beq]
      rw [JSValue.beqList_iff a b]
      simp
  | .arr _, .obj _ => by simp [JSValue.beq]
  | .obj _, .str _ | .obj _, .num _ | .obj _, .bool _ | .obj _, .null | .obj _, .arr _ => by
      simp [JSValue.beq]
  | .obj a, .obj b => by
      rw [JSValue.beq]
      rw [JSValue.beqObj_iff a b]
      simp

theorem JSValue.beqList_iff : ∀ a b : List JSValue, JSValue.beqList a b = true ↔ a = b
  | [], [] => by simp [JSValue.beqList]
  | [], _ :: _ => by simp [JSValue.beqList]
  | _ :: _, [] => by simp [JSValue.beqList]
  | a :: as, b :: bs => by
      rw [JSValue.beqList]
      rw [Bool.and_eq_true, JSValue.beq_iff a b, JSValue.beqList_iff as bs]
      simp

theorem JSValue.beqObj_iff :
    ∀ a b : List (String × JSValue), JSValue.beqObj a b = true ↔ a = b
  | [], [] => by simp [JSValue.beqObj]
  | [], _ :: _ => by simp [JSValue.beqObj]
  | _ :: _, [] => by simp [JSValue.beqObj]
  | (k, v) :: as, (k', v') :: bs => by
      rw [JSValue.beqObj]
      rw [Bool.and_eq_true, Bool.and_eq_true, JSValue.beq_iff v v', JSValue.beqObj_iff as bs]
      simp [Prod.ext_iff, and_assoc]

end

instance : DecidableEq JSValue := fun a b =>
  decidable_of_iff (JSValue.beq a b = true) (JSValue.beq_iff a b)

/-- A JS object: the ordered list of own enumerable properties. -/
abbrev Obj := List (String × JSValue)

/-- Property read, `o[k]`: the first binding of `k` (JS objects have
unique keys; well-formed states keep this list duplicate-free).
`none` models `undefined`. -/
def getKey (o : Obj) (k : String) : Option JSValue :=
  (o.find? (fun p => p.1 = k)).map (·.2)

/-- `k in o`. -/
def hasKey (o : Obj) (k : String) : Bool :=
  o.any (fun p => p.1 = k)

/-- Property write, `o[k] = v`: overwrite in place when the key exists
(keeping its position, as JS does), otherwise append. -/
def setKey (o : Obj) (k : String) (v : JSValue) : Obj :=
  if hasKey o k then o.map (fun p => if p.1 = k then (k, v) else p)
  else o ++ [(k, v)]

/-- Property delete, `delete o[k]`. -/
def delKey (o : Obj) (k : String) : Obj :=
  o.filter (fun p => ¬(p.1 = k))

/-- JS truthiness of a value. -/
def JSValue.truthy : JSValue → Bool
  | .str s => s ≠ ""
  | .num n => n ≠ 0
  | .bool b => b
  | .null => false
  | .arr _ => true
  | .obj _ => true

/-- JS truthiness of a possibly-`undefined` value. -/
def truthyO : Option JSValue → Bool
  | some v => v.truthy
  | none => false

/- Deep equality in the sense of the repository's test assertions
(`chai`'s `deep.equal`): arrays are compared element-wise in order,
objects by key set (order-insensitive), scalars by value. -/
mutual

def deepEqual : JSValue → JSValue → Bool
  | .str a, .str b => a = b
  | .num a, .num b => a = b
  | .bool a, .bool b => a = b
  | .null, .null => true
  | .arr a, .arr b => deepEqualList a b
  | .obj a, .obj b => deepEqualEntries a b && b.all (fun p => hasKey a p.1)
  | _, _ => false

def deepEqualList : List JSValue → List JSValue → Bool
  | [], [] => true
  | a :: as, b :: bs => deepEqual a b && deepEqualList as bs
  | _, _ => false

def deepEqualEntries : List (String × JSValue) → Obj → Bool
  | [], _ => true
  | (k, v) :: rest, b =>
      (match getKey b k with
       | some w => deepEqual v w
       | none => false) && deepEqualEntries rest b

end

/-- Key list without duplicates (JS objects always satisfy this). -/
def nodupKeys : List String → Bool
  | [] => true
  | k :: rest => !(rest.any (fun x => x = k)) && nodupKeys rest

/- Well-formedness: every object in the tree has duplicate-free keys.
All values built by the JS runtime satisfy this. -/
mutual

def JSValue.wfKeys : JSValue → Bool
  | .str _ => true
  | .num _ => true
  | .bool _ => true
  | .null => true
  | .arr l => JSValue.wfKeysList l
  | .obj o => nodupKeys (o.map Prod.fst) && JSValue.wfKeysObj o

def JSValue.wfKeysList : List JSValue → Bool
  | [] => true
  | v :: rest => v.wfKeys && JSValue.wfKeysList rest

def JSValue.wfKeysObj : List (String × JSValue) → Bool
  | [] => true
  | (_, v) :: rest => v.wfKeys && JSValue.wfKeysObj rest

end

theorem getKey_cons (p : String × JSValue) (rest : Obj) (k : String) :
    getKey (p :: rest) k = if p.1 = k then some p.2 else getKey rest k := by
  by_cases h : p.1 = k
  · rw [if_pos h]
    simp only [getKey]
    rw [List.find?_cons_of_pos _ (by simpa using h)]
    rfl
  · rw [if_neg h]
    simp only [getKey]
    rw [List.find?_cons_of_neg _ (by simpa using h)]

theorem hasKey_cons (p : String × JSValue) (rest : Obj) (k : String) :
    hasKey (p :: rest) k = (decide (p.1 = k) || hasKey rest k) := by
  simp [hasKey]

theorem hasKey_iff_exists {o : Obj} {k : String} :
    hasKey o k = true ↔ ∃ v, (k, v) ∈ o := by
  simp only [hasKey, List.any_eq_true, decide_eq_true_eq]
  constructor
  · rintro ⟨⟨k', v⟩, hm, hk⟩
    subst hk
    exact ⟨v, hm⟩
  · rintro ⟨v, hm⟩
    exact ⟨(k, v), hm, rfl⟩

theorem getKey_of_mem_nodup {o : Obj} {k : String} {v : JSValue}
    (hn : nodupKeys (o.map Prod.fst) = true) (hm : (k, v) ∈ o) :
    getKey o k = some v := by
  induction o with
  | nil => cases hm
  | cons p rest ih =>
      obtain ⟨k', v'⟩ := p
      simp only [List.map_cons, nodupKeys, Bool.and_eq_true, Bool.not_eq_true',
        List.any_eq_false, decide_eq_false_iff_not] at hn
      rcases List.mem_cons.mp hm with h | h
      · rw [Prod.mk.injEq] at h
        obtain ⟨h1, h2⟩ := h
        subst h1
        subst h2
        rw [getKey_cons, if_pos rfl]
      · have hk : ¬((k', v').1 = k) := by
          intro he
          simp only at he
          subst he
          exact hn.1 k' (List.mem_map.mpr ⟨(k', v), h, rfl⟩) (by simp)
        rw [getKey_cons, if_neg hk]
        exact ih hn.2 h

theorem getKey_mapSet (o : Obj) (k k' : String) (v : JSValue) (h : k' ≠ k) :
    getKey (o.map (fun p => if p.1 = k then (k, v) else p)) k' = getKey o k' := by
  induction o with
  | nil => rfl
  | cons p rest ih =>
      rw [List.map_cons]
      by_cases hp : p.1 = k
      · have h1 : ¬(k = k') := fun he => h he.symm
        have h2 : ¬(p.1 = k') := by
          rw [hp]
          exact h1
        rw [if_pos hp, getKey_cons, getKey_cons, if_neg h2]
        dsimp only
        rw [if_neg h1]
        exact ih
      · rw [if_neg hp, getKey_cons, getKey_cons]
        by_cases hp' : p.1 = k'
        · simp [hp']
        · simp only [if_neg hp']
          exact ih

theorem getKey_append_single_ne (o : Obj) (k k' : String) (v : JSValue) (h : k' ≠ k) :
    getKey (o ++ [(k, v)]) k' = getKey o k' := by
  induction o with
  | nil =>
      rw [List.nil_append, getKey_cons, if_neg (fun he => h (by simpa using he.symm))]
  | cons p rest ih =>
      rw [List.cons_append, getKey_cons, getKey_cons]
      by_cases hp : p.1 = k'
      · simp [hp]
      · simp only [if_neg hp]
        exact ih

theorem getKey_setKey_self (o : Obj) (k : String) (v : JSValue) :
    getKey (setKey o k v) k = some v := by
  unfold setKey
  by_cases h : hasKey o k = true
  · rw [if_pos h]
    induction o with
    | nil => simp [hasKey] at h
    | cons p rest ih =>
        rw [List.map_cons]
        by_cases hp : p.1 = k
        · rw [if_pos hp, getKey_cons, if_pos rfl]
        · rw [if_neg hp, getKey_cons, if_neg hp]
          apply ih
          rw [hasKey_cons] at h
          simpa [hp] using h
  · rw [if_neg h]
    induction o with
    | nil =>
        rw [List.nil_append, getKey_cons, if_pos rfl]
    | cons p rest ih =>
        have hp : ¬(p.1 = k) := by
          intro he
          exact h (by rw [hasKey_cons]; simp [he])
        rw [List.cons_append, getKey_cons, if_neg hp]
        apply ih
        intro h'
        exact h (by rw [hasKey_cons, h']; simp)

theorem getKey_setKey_ne (o : Obj) (k k' : String) (v : JSValue) (h : k' ≠ k) :
    getKey (setKey o k v) k' = getKey o k' := by
  unfold setKey
  by_cases hk : hasKey o k = true
  · rw [if_pos hk]
    exact getKey_mapSet o k k' v h
  · rw [if_neg hk]
    exact getKey_append_single_ne o k k' v h

theorem getKey_delKey_self (o : Obj) (k : String) :
    getKey (delKey o k) k = none := by
  induction o with
  | nil => rfl
  | cons p rest ih =>
      simp only [delKey, List.filter_cons] at ih ⊢
      by_cases hp : p.1 = k
      · rw [if_neg (by simpa using hp)]
        exact ih
      · rw [if_pos (by simpa using hp), getKey_cons, if_neg hp]
        exact ih

theorem getKey_delKey_ne (o : Obj) (k k' : String) (h : k' ≠ k) :
    getKey (delKey o k) k' = getKey o k' := by
  induction o with
  | nil => rfl
  | cons p rest ih =>
      simp only [delKey, List.filter_cons] at ih ⊢
      by_cases hp : p.1 = k
      · have hp' : ¬(p.1 = k') := by
          rw [hp]
          exact fun he => h he.symm
        rw [if_neg (by simpa using hp), getKey_cons, if_neg hp']
        exact ih
      · rw [if_pos (by simpa using hp), getKey_cons, getKey_cons]
        by_cases hp' : p.1 = k'
        · simp [hp']
        · simp only [if_neg hp']
          exact ih

theorem hasKey_eq_false_iff_getKey {o : Obj} {k : String} :
    hasKey o k = false ↔ getKey o k = none := by
  induction o with
  | nil => simp [hasKey, getKey]
  | cons p rest ih =>
      rw [hasKey_cons, getKey_cons]
      by_cases hp : p.1 = k
      · simp [hp]
      · simp only [if_neg hp, Bool.or_eq_false_iff, decide_eq_false_iff_not]
        rw [← ih]
        simp [hp]

/-- The five concrete event variants (registered event type discriminators). -/
def eventTypeNames : List String :=
  ["ObjectEvent", "AggregationEvent", "TransactionEvent", "TransformationEvent",
    "AssociationEvent"]

/-- List-valued standard fields cleared and re-added by each event variant's
constructor.  The `TransactionEvent` row is read off `TransactionEvent.js`
(lines 26–31); the other four variants' class files are not under study, so
their rows are Modelled from the spec: the spec's variant-specific field
lists (`childEPCs`, `inputEPCList`, ... per variant). -/
def listKeysOf (n : String) : List String :=
  if n = "TransactionEvent" then
    ["bizTransactionList", "epcList", "quantityList", "sourceList",
      "destinationList", "sensorElementList"]
  else if n = "ObjectEvent" then
    ["epcList", "quantityList", "bizTransactionList", "sourceList",
      "destinationList", "sensorElementList"]
  else if n = "AggregationEvent" then
    ["childEPCs", "childQuantityList", "bizTransactionList", "sourceList",
      "destinationList", "sensorElementList"]
  else if n = "TransformationEvent" then
    ["inputEPCList", "outputEPCList", "inputQuantityList", "outputQuantityList",
      "bizTransactionList", "sourceList", "destinationList", "sensorElementList"]
  else
    ["childEPCs", "childQuantityList", "bizTransactionList", "sourceList",
      "destinationList", "sensorElementList"]

/-- An event entity: its ordered own properties.  The leaf value-object
sub-entities (`BizTransactionElement`, `QuantityElement`, `SourceElement`,
`DestinationElement`, `SensorElement`, `ReadPoint`, `BizLocation`,
`PersistentDisposition`) are Modelled from the spec: the spec gives them
round-trip fidelity and no invariant of their own, so constructing one from
a raw object and serializing it back is the identity, and they are stored
here as their plain values. -/
structure TEvent where
  fields : Obj
deriving DecidableEq

/-- The shared shape of the event constructors (`TransactionEvent.js`
lines 18–69): `super` copies every raw entry (`Entity`, Modelled from the
spec: verbatim copy), `this.isA` is set to the variant name, the list
fields are cleared, then each raw entry is revisited in order: entries of
list-valued standard fields must be arrays (`value.forEach` throws
otherwise, modelled as `none`) and are re-added element-wise through their
leaf constructors (identity, see `TEvent`); `readPoint`, `bizLocation` and
`persistentDisposition` are re-assigned through their leaf constructors
(identity); every other entry stays as copied. -/
def TEvent.ofRaw (n : String) (kvs : Obj) : Option TEvent :=
  let f1 := setKey kvs "isA" (JSValue.str n)
  let f2 := (listKeysOf n).foldl (fun acc k => delKey acc k) f1
  (kvs.foldlM (fun acc p =>
      if p.1 ∈ listKeysOf n then
        match p.2 with
        | JSValue.arr _ => some (setKey acc p.1 p.2)
        | _ => none
      else some acc) f2).map TEvent.mk

/-- Modelled from the spec: `objectToEvent` (the entity-utils helper, not
under study) reads the event discriminator (`type`, falling back to the
legacy `isA` field), maps it to exactly one of the five known event
variants, and fails with `UnknownEventType` (modelled as `none`) on
anything else. -/
def objectToEvent (v : JSValue) : Option TEvent :=
  match v with
  | JSValue.obj kvs =>
      match getKey kvs "type" with
      | some (JSValue.str n) => if n ∈ eventTypeNames then TEvent.ofRaw n kvs else none
      | some _ => none
      | none =>
          match getKey kvs "isA" with
          | some (JSValue.str n) =>
              if n ∈ eventTypeNames then TEvent.ofRaw n kvs else none
          | _ => none
  | _ => none

/-- `Entity.toObject` on an event: every own property serialized; leaf
sub-entities serialize to the plain values they already are stored as. -/
def TEvent.toObject (t : TEvent) : JSValue := JSValue.obj t.fields

/-- `addEPC` (`TransactionEvent.js` lines 158–164): create the list if it
is falsy, then push.  Pushing onto a truthy non-array throws (`none`,
unreachable through the accessor API). -/
def TEvent.addEPC (t : TEvent) (epc : JSValue) : Option TEvent :=
  match getKey t.fields "epcList" with
  | some (JSValue.arr l) =>
      some ⟨setKey t.fields "epcList" (JSValue.arr (l ++ [epc]))⟩
  | some v =>
      if v.truthy then none
      else some ⟨setKey t.fields "epcList" (JSValue.arr [epc])⟩
  | none => some ⟨setKey t.fields "epcList" (JSValue.arr [epc])⟩

/-- `removeEPC` (lines 194–197): `this.epcList = this.epcList.filter((elem)
=> elem !== epc)`.  `!==` on the strings an `epcList` holds is value
inequality, which structural inequality models exactly; reading `.filter`
of an absent (or non-array) `epcList` throws (`none`). -/
def TEvent.removeEPC (t : TEvent) (epc : JSValue) : Option TEvent :=
  match getKey t.fields "epcList" with
  | some (JSValue.arr l) =>
      some ⟨setKey t.fields "epcList" (JSValue.arr (l.filter (fun e => ¬(e = epc))))⟩
  | _ => none

/-- `clearEPCList` (lines 184–187): `delete this.epcList`. -/
def TEvent.clearEPCList (t : TEvent) : TEvent :=
  ⟨delKey t.fields "epcList"⟩

/-- `getEPCList` (lines 214–216). -/
def TEvent.getEPCList (t : TEvent) : Option JSValue :=
  getKey t.fields "epcList"

/-- The process-wide settings collaborator as consumed at document
construction time: plain values for `EPCISDocumentContext`,
`EPCISDocumentSchemaVersion` and `useEventListByDefault`, plus the value
`new Date().toISOString()` evaluates to at that moment. -/
structure Settings where
  EPCISDocumentContext : JSValue
  EPCISDocumentSchemaVersion : JSValue
  nowISO : JSValue
  useEventListByDefault : Bool
deriving DecidableEq

/-- The `EPCISDocument` entity.  `eventList` (a list of event entities,
absent until created) and `useEventListByDefault` (deleted from every
serialization) live outside the plain property store `fields`. -/
structure EPCISDocument where
  fields : Obj
  eventList : Option (List TEvent)
  useEventListByDefault : Bool
deriving DecidableEq

/-- The `epcisBody` case of the constructor (lines 45–55): if `value.event`
is truthy the single event is reconstructed via `addEvent`; otherwise, if
`value.eventList` is truthy (an empty array is truthy), `forEach` calls
`addEvent` once per element (`forEach` of a truthy non-array throws,
`none`) — so over an empty array `addEvent` never runs and `this.eventList`
stays undefined; otherwise nothing happens.  Reading a property of `null`
throws; property reads on other non-objects yield `undefined`. -/
def parseBody : JSValue → Option (Option (List TEvent))
  | JSValue.null => none
  | JSValue.obj kvs =>
      if truthyO (getKey kvs "event") then
        (objectToEvent ((getKey kvs "event").getD JSValue.null)).map (fun e => some [e])
      else if truthyO (getKey kvs "eventList") then
        match getKey kvs "eventList" with
        | some (JSValue.arr l) =>
            (l.mapM objectToEvent).map (fun es =>
              match es with
              | [] => none
              | _ :: _ => some es)
        | _ => none
      else some none
  | _ => some none

/-- The first half of the constructor before the `forEach` over the raw
entries: `this.isA = 'EPCISDocument'` and the three truthiness-guarded
defaults, applied to the store `super` produced (with the always-overwritten,
never-serialized `useEventListByDefault` key removed, see `ofRaw`). -/
def defaultedFields (s : Settings) (f0 : Obj) : Obj :=
  let f1 := delKey f0 "useEventListByDefault"
  let f2 := setKey f1 "isA" (JSValue.str "EPCISDocument")
  let f3 := if truthyO (getKey f2 "@context") then f2
    else setKey f2 "@context" s.EPCISDocumentContext
  let f4 := if truthyO (getKey f3 "schemaVersion") then f3
    else setKey f3 "schemaVersion" s.EPCISDocumentSchemaVersion
  if truthyO (getKey f4 "creationDate") then f4
  else setKey f4 "creationDate" s.nowISO

/-- The plain-store effect of the constructor's `forEach` (the `isA` and
`epcisHeader` cases; `epcisBody` only touches `eventList`, handled in
`ofRaw`). -/
def constructFields (s : Settings) (r : Obj) : Obj :=
  let f5 := defaultedFields s r
  let f6 := match getKey r "isA" with
    | some v => setKey f5 "isA" v
    | none => f5
  match getKey r "epcisHeader" with
  | some v => setKey f6 "epcisHeader" v
  | none => f6

/-- `new EPCISDocument(raw)` (`EPCISDocument.js` lines 14–59), with its
plain-store effect factored into the two stages above.  `Entity`'s own
constructor is Modelled from the spec: it copies every raw entry verbatim
onto the instance.  `setUseEventListByDefault(settings...)` overwrites any
copied `useEventListByDefault` (and serialization deletes it), modelled by
removing the key from the store.  `EPCISHeader` is a leaf sub-entity
Modelled from the spec with round-trip fidelity, so `setEPCISHeader(new
EPCISHeader(value))` re-assigns the unchanged value.  The model keeps
`eventList` outside the plain store, so raw inputs carrying plain
top-level `event` or `eventList` keys fall outside the model (`none`). -/
def EPCISDocument.ofRaw (s : Settings) (raw : Option Obj) : Option EPCISDocument :=
  let f0 := raw.getD []
  if hasKey f0 "event" || hasKey f0 "eventList" then none
  else
    match raw with
    | none => some ⟨defaultedFields s [], none, s.useEventListByDefault⟩
    | some r =>
        match getKey r "epcisBody" with
        | none => some ⟨constructFields s r, none, s.useEventListByDefault⟩
        | some bodyv =>
            (parseBody bodyv).map (fun el => ⟨constructFields s r, el, s.useEventListByDefault⟩)

/-- The tail of `toObject` (lines 276–286): a truthy `event` or `eventList`
property is moved into a fresh `epcisBody` object (the `event` one wins). -/
def toObjectBody (o : Obj) : Obj :=
  if truthyO (getKey o "event") || truthyO (getKey o "eventList") then
    if truthyO (getKey o "event") then
      setKey (delKey o "event") "epcisBody"
        (JSValue.obj [("event", (getKey o "event").getD JSValue.null)])
    else
      setKey (delKey o "eventList") "epcisBody"
        (JSValue.obj [("eventList", (getKey o "eventList").getD JSValue.null)])
  else o

/-- `toObject` (lines 265–289).  `super.toObject()` (`Entity`, Modelled
from the spec) serializes every own property, entity-valued ones
recursively — here: the event entities of `eventList`; `delete
output.useEventListByDefault` is modelled by the toggle living outside the
property store.  When the toggle is false the code reads
`this.eventList.length`: on a document whose `eventList` was never created
this throws a `TypeError` (`none`). -/
def EPCISDocument.toObject (d : EPCISDocument) : Option JSValue :=
  let base := match d.eventList with
    | some evs => setKey d.fields "eventList" (JSValue.arr (evs.map TEvent.toObject))
    | none => d.fields
  if d.useEventListByDefault then some (JSValue.obj (toObjectBody base))
  else
    match d.eventList with
    | none => none
    | some evs =>
        if evs.length < 2 then
          let o1 := delKey base "eventList"
          let o2 := setKey o1 "event"
            (match evs with
             | [] => JSValue.obj []
             | e :: _ => e.toObject)
          some (JSValue.obj (toObjectBody o2))
        else some (JSValue.obj (toObjectBody base))

/-- `addEvent` (lines 192–198): create the list if absent, then push. -/
def EPCISDocument.addEvent (d : EPCISDocument) (e : TEvent) : EPCISDocument :=
  { d with eventList := some ((d.eventList.getD []) ++ [e]) }

/-- `addEventList` (lines 205–211). -/
def EPCISDocument.addEventList (d : EPCISDocument) (evs : List TEvent) : EPCISDocument :=
  { d with eventList := some ((d.eventList.getD []) ++ evs) }

/-- `clearEventList` (lines 217–220): `delete this.eventList`. -/
def EPCISDocument.clearEventList (d : EPCISDocument) : EPCISDocument :=
  { d with eventList := none }

/-- `removeEvent` (lines 227–231): `this.eventList =
this.eventList.filter((elem) => elem !== event)`.  JS `!==` compares the
event entities by reference; the embedding compares them by value, which
coincides whenever the argument is an element of the list itself.  Reading
`.filter` of an absent `eventList` throws (`none`). -/
def EPCISDocument.removeEvent (d : EPCISDocument) (e : TEvent) : Option EPCISDocument :=
  match d.eventList with
  | some evs => some { d with eventList := some (evs.filter (fun x => ¬(x = e))) }
  | none => none

/-- `removeEventList` (lines 238–241): repeated `removeEvent`. -/
def EPCISDocument.removeEventList (d : EPCISDocument) (evs : List TEvent) :
    Option EPCISDocument :=
  evs.foldlM EPCISDocument.removeEvent d

/-- `getEventList` (lines 247–249). -/
def EPCISDocument.getEventList (d : EPCISDocument) : Option (List TEvent) :=
  d.eventList

/-- Validation errors that abort a validation run.  Modelled from the spec
(§7): lookup failures are fatal and raised immediately (the validator
module itself is not among the files under study, only its tests are). -/
inductive ValidationError where
  | UnknownSchemaError
  | UnknownFieldSetError
  | UnknownDocumentType
  | UnknownEventType
deriving DecidableEq

/-- A non-fatal violation, tagged with its JSON path and a message
(Modelled from the spec, §7). -/
structure Violation where
  path : String
  message : String
deriving DecidableEq

/-- The collect-mode result: `success` is `errors = []` (Modelled from the
spec, §4.4). -/
structure ValidationResult where
  success : Bool
  errors : List Violation
deriving DecidableEq

/-- Modelled from the spec (§6): registered document-type discriminators. -/
def docTypeNames : List String :=
  ["EPCISDocument", "EPCISQueryDocument", "EPCISMasterDataDocument"]

/-- Modelled from the spec (§4.2): the registered schema names — one per
document type and one per event type.  The literal JSON-Schema contents
are an opaque, swappable catalog outside the spec's scope. -/
def schemaNames : List String := docTypeNames ++ eventTypeNames

/-- Modelled from the spec (§4.2): `validateAgainstSchema(value,
schemaName)` fails with `UnknownSchemaError` when the name is not
registered; otherwise it runs the named schema's structural check —
represented by the parameter `structCheck`, standing for the opaque
catalog — and returns its ordered violation list, never throwing on
content. -/
def validateAgainstSchema (structCheck : String → JSValue → List Violation)
    (v : JSValue) (schemaName : String) : Except ValidationError (List Violation) :=
  if schemaName ∈ schemaNames then Except.ok (structCheck schemaName v)
  else Except.error ValidationError.UnknownSchemaError

/-- Modelled from the spec (§3 and §4.2): the set of legal top-level field
names registered for each node-type name. -/
def fieldSetOf (n : String) : List String :=
  let commonEvent : List String :=
    ["type", "isA", "eventID", "eventTime", "eventTimeZoneOffset", "recordTime",
      "action", "bizStep", "disposition", "readPoint", "bizLocation",
      "bizTransactionList", "sourceList", "destinationList", "sensorElementList",
      "persistentDisposition", "errorDeclaration"]
  if n = "EPCISDocument" ∨ n = "EPCISQueryDocument" ∨ n = "EPCISMasterDataDocument" then
    ["type", "isA", "@context", "schemaVersion", "creationDate", "format",
      "epcisHeader", "epcisBody"]
  else if n = "EPCISBody" then ["event", "eventList", "queryResults"]
  else if n = "ObjectEvent" then commonEvent ++ ["epcList", "quantityList", "ilmd"]
  else if n = "AggregationEvent" then
    commonEvent ++ ["parentID", "childEPCs", "childQuantityList"]
  else if n = "TransactionEvent" then commonEvent ++ ["parentID", "epcList", "quantityList"]
  else if n = "TransformationEvent" then
    commonEvent ++ ["inputEPCList", "inputQuantityList", "outputEPCList",
      "outputQuantityList", "transformationID", "ilmd"]
  else if n = "AssociationEvent" then
    commonEvent ++ ["parentID", "childEPCs", "childQuantityList"]
  else if n = "SensorElement" then ["sensorMetadata", "sensorReport"]
  else if n = "SensorMetadata" then
    ["time", "startTime", "endTime", "deviceID", "deviceMetadata", "rawData",
      "dataProcessingMethod", "bizRules"]
  else if n = "SensorReport" then
    ["type", "deviceID", "deviceMetadata", "rawData", "dataProcessingMethod",
      "time", "microorganism", "chemicalSubstance", "value", "component",
      "stringValue", "booleanValue", "hexBinaryValue", "uriValue", "minValue",
      "maxValue", "meanValue", "sDev", "percRank", "percValue", "uom"]
  else if n = "ReadPoint" ∨ n = "BizLocation" then ["id"]
  else if n = "BizTransactionElement" then ["type", "bizTransaction"]
  else if n = "SourceElement" then ["type", "source"]
  else if n = "DestinationElement" then ["type", "destination"]
  else if n = "QuantityElement" then ["epcClass", "quantity", "uom"]
  else if n = "PersistentDisposition" then ["set", "unset"]
  else ["declarationTime", "reason", "correctiveEventIDs"]

/-- Modelled from the spec: the registered field-set names. -/
def fieldSetNames : List String :=
  ["EPCISDocument", "EPCISQueryDocument", "EPCISMasterDataDocument", "EPCISBody",
    "SensorElement", "SensorMetadata", "SensorReport", "ReadPoint", "BizLocation",
    "BizTransactionElement", "SourceElement", "DestinationElement",
    "QuantityElement", "PersistentDisposition", "ErrorDeclaration"] ++ eventTypeNames

/-- Modelled from the spec (§4.2): `ensureFieldSet(value, fieldSetName)`
fails with `UnknownFieldSetError` when the name is not registered;
otherwise it partitions the value's own keys into known and foreign. -/
def ensureFieldSet (v : JSValue) (fieldSetName : String) :
    Except ValidationError (List String × List String) :=
  if fieldSetName ∈ fieldSetNames then
    let ks : List String := match v with
      | JSValue.obj kvs => kvs.map Prod.fst
      | _ => []
    Except.ok (ks.filter (fun k => k ∈ fieldSetOf fieldSetName),
      ks.filter (fun k => ¬(k ∈ fieldSetOf fieldSetName)))
  else Except.error ValidationError.UnknownFieldSetError

/-- Modelled from the spec (§4.3): namespace prefixes collected from
`@context` — a mapping contributes its keys, a sequence merges the keys of
its mapping elements, a plain string contributes none. -/
def collectNS : JSValue → List String
  | JSValue.obj kvs => kvs.map Prod.fst
  | JSValue.arr l =>
      l.foldl (fun acc e =>
        acc ++ (match e with
                | JSValue.obj kvs => kvs.map Prod.fst
                | _ => [])) []
  | _ => []

/-- Modelled from the spec (§4.3 step 3): a foreign key must look like
`ns:localName` — exactly one colon, non-empty on both sides. -/
def qualPattern (k : String) : Bool :=
  let cs := k.toList
  cs.count ':' = 1 && ¬(cs.head? = some ':') && ¬(cs.getLast? = some ':')

/-- The namespace part of a qualified key: the characters before the
first colon. -/
def keyNS (k : String) : String :=
  String.mk (k.toList.takeWhile (fun c => ¬(c = ':')))

/-- Modelled from the spec (§4.2): which known keys hold structured
sub-nodes with their own field-set name (list-valued ones element-wise);
`event`/`eventList` members of the body are dispatched on each element's
own event-type discriminator instead (see the walker). -/
def childFS (fs k : String) : Option String :=
  if fs = "EPCISDocument" ∨ fs = "EPCISQueryDocument" ∨ fs = "EPCISMasterDataDocument" then
    if k = "epcisBody" then some "EPCISBody" else none
  else if fs ∈ eventTypeNames then
    if k = "sensorElementList" then some "SensorElement"
    else if k = "readPoint" then some "ReadPoint"
    else if k = "bizLocation" then some "BizLocation"
    else if k = "bizTransactionList" then some "BizTransactionElement"
    else if k = "sourceList" then some "SourceElement"
    else if k = "destinationList" then some "DestinationElement"
    else if k = "quantityList" ∨ k = "childQuantityList" ∨ k = "inputQuantityList"
      ∨ k = "outputQuantityList" then some "QuantityElement"
    else if k = "persistentDisposition" then some "PersistentDisposition"
    else if k = "errorDeclaration" then some "ErrorDeclaration"
    else none
  else if fs = "SensorElement" then
    if k = "sensorMetadata" then some "SensorMetadata"
    else if k = "sensorReport" then some "SensorReport"
    else none
  else none

/-- Modelled from the spec (§4.2): resolve an event's discriminator
(`type`, legacy `isA`) against the five registered event types. -/
def resolveEventType (v : JSValue) : Option String :=
  match v with
  | JSValue.obj kvs =>
      match getKey kvs "type" with
      | some (JSValue.str n) => if n ∈ eventTypeNames then some n else none
      | some _ => none
      | none =>
          match getKey kvs "isA" with
          | some (JSValue.str n) => if n ∈ eventTypeNames then some n else none
          | _ => none
  | _ => none

/-- Modelled from the spec (§4.4): resolve the document-level discriminator
against the registered document schemas. -/
def resolveDocType (v : JSValue) : Option String :=
  match v with
  | JSValue.obj kvs =>
      match getKey kvs "type" with
      | some (JSValue.str n) => if n ∈ docTypeNames then some n else none
      | some _ => none
      | none =>
          match getKey kvs "isA" with
          | some (JSValue.str n) => if n ∈ docTypeNames then some n else none
          | _ => none
  | _ => none

/- The recursive extension walker, Modelled from the spec (§4.3).
`extSubtree` handles extension subtrees: every object key at any depth
inside the subtree must be namespace-qualified with a declared prefix,
arrays recurse element-wise, scalar leaves are accepted.  `walkNode`
handles document-standard nodes: known keys recurse into their structured
children (each body event dispatched on its own discriminator), foreign
keys must be qualified and declared and their values become extension
subtrees.  Violations accumulate and never short-circuit. -/
mutual

def extSubtree (nss : List String) (path : String) : JSValue → List Violation
  | JSValue.obj kvs => extSubtreeObj nss path kvs
  | JSValue.arr l => extSubtreeArr nss path l
  | _ => []

def extSubtreeObj (nss : List String) (path : String) :
    List (String × JSValue) → List Violation
  | [] => []
  | (k, v) :: rest =>
      (if qualPattern k = false then
        [⟨path ++ "." ++ k, "ExtensionViolation: key is not namespace-qualified"⟩]
      else if keyNS k ∈ nss then extSubtree nss (path ++ "." ++ k) v
      else [⟨path ++ "." ++ k, "ExtensionViolation: namespace not declared"⟩])
      ++ extSubtreeObj nss path rest

def extSubtreeArr (nss : List String) (path : String) : List JSValue → List Violation
  | [] => []
  | v :: rest => extSubtree nss path v ++ extSubtreeArr nss path rest

def walkNode (nss : List String) (fs path : String) : JSValue → List Violation
  | JSValue.obj kvs => walkEntries nss fs path kvs
  | _ => []
termination_by structural v => v

def walkEntries (nss : List String) (fs path : String) :
    List (String × JSValue) → List Violation
  | [] => []
  | p :: rest => entryCheck nss fs path p ++ walkEntries nss fs path rest
termination_by structural l => l

def entryCheck (nss : List String) (fs path : String) :
    (String × JSValue) → List Violation
  | (k, v) =>
      if k ∈ fieldSetOf fs then
        if fs = "EPCISBody" ∧ (k = "event" ∨ k = "eventList") then
          match v with
          | JSValue.arr l => walkEvents nss (path ++ "." ++ k) l
          | w =>
              match resolveEventType w with
              | some et => walkNode nss et (path ++ "." ++ k) w
              | none => []
        else
          match childFS fs k with
          | some cfs =>
              match v with
              | JSValue.arr l => walkList nss cfs (path ++ "." ++ k) l
              | w => walkNode nss cfs (path ++ "." ++ k) w
          | none => []
      else if qualPattern k = false then
        [⟨path ++ "." ++ k, "ExtensionViolation: key is not namespace-qualified"⟩]
      else if keyNS k ∈ nss then extSubtree nss (path ++ "." ++ k) v
      else [⟨path ++ "." ++ k, "ExtensionViolation: namespace not declared"⟩]
termination_by structural p => p

def walkEvents (nss : List String) (path : String) : List JSValue → List Violation
  | [] => []
  | v :: rest =>
      (match resolveEventType v with
       | some et => walkNode nss et path v
       | none => []) ++ walkEvents nss path rest
termination_by structural l => l

def walkList (nss : List String) (fs path : String) : List JSValue → List Violation
  | [] => []
  | v :: rest => walkNode nss fs path v ++ walkList nss fs path rest
termination_by structural l => l

end

/-- The body's events, singular or plural form (Modelled from the spec,
§4.4 step 2). -/
def bodyEvents (v : JSValue) : List JSValue :=
  match v with
  | JSValue.obj kvs =>
      match getKey kvs "epcisBody" with
      | some (JSValue.obj body) =>
          (match getKey body "event" with
           | some e => [e]
           | none => []) ++
          (match getKey body "eventList" with
           | some (JSValue.arr l) => l
           | _ => [])
      | _ => []
  | _ => []

/-- Modelled from the spec (§4.4, collect mode): resolve the document
discriminator (`UnknownDocumentType` when impossible, before anything else
runs); resolve each body event's discriminator (`UnknownEventType` when one
fails); then gather, without stopping early, the document-level structural
violations, each event's structural violations against its own type, and
the extension violations of the whole tree; `success` is `errors = []`.
`structCheck` stands for the opaque JSON-Schema catalog. -/
def validateEpcisDocument (structCheck : String → JSValue → List Violation)
    (v : JSValue) : Except ValidationError ValidationResult :=
  match resolveDocType v with
  | none => Except.error ValidationError.UnknownDocumentType
  | some dt =>
      match (bodyEvents v).mapM (fun e =>
          match resolveEventType e with
          | some et => some (et, e)
          | none => none) with
      | none => Except.error ValidationError.UnknownEventType
      | some evs =>
          let structuralErrs := structCheck dt v ++
            evs.foldr (fun p acc => structCheck p.1 p.2 ++ acc) []
          let nss := match v with
            | JSValue.obj kvs => collectNS ((getKey kvs "@context").getD JSValue.null)
            | _ => []
          let errs := structuralErrs ++ walkNode nss dt "$" v
          Except.ok ⟨errs.isEmpty, errs⟩

/-- The key list of an object. -/
def keysOf (o : Obj) : List String := o.map Prod.fst

theorem hasKey_of_mem {o : Obj} {k : String} {v : JSValue} (h : (k, v) ∈ o) :
    hasKey o k = true :=
  hasKey_iff_exists.mpr ⟨v, h⟩

theorem mem_of_getKey {o : Obj} {k : String} {v : JSValue} (h : getKey o k = some v) :
    (k, v) ∈ o := by
  induction o with
  | nil => simp [getKey] at h
  | cons p rest ih =>
      rw [getKey_cons] at h
      by_cases hp : p.1 = k
      · rw [if_pos hp] at h
        injection h with h2
        obtain ⟨k0, v0⟩ := p
        simp only at hp h2
        subst hp
        subst h2
        exact List.mem_cons_self _ _
      · rw [if_neg hp] at h
        exact List.mem_cons_of_mem _ (ih h)

theorem hasKey_true_iff_getKey {o : Obj} {k : String} :
    hasKey o k = true ↔ ∃ v, getKey o k = some v := by
  constructor
  · intro h
    obtain ⟨v, hv⟩ := hasKey_iff_exists.mp h
    cases hg : getKey o k with
    | some w => exact ⟨w, rfl⟩
    | none =>
        rw [← hasKey_eq_false_iff_getKey] at hg
        rw [h] at hg
        cases hg
  · rintro ⟨v, hv⟩
    exact hasKey_of_mem (mem_of_getKey hv)

theorem delKey_noop {o : Obj} {k : String} (h : hasKey o k = false) :
    delKey o k = o := by
  rw [delKey, List.filter_eq_self]
  intro p hp
  have hne : ¬(p.1 = k) := by
    intro he
    have hm : (k, p.2) ∈ o := by
      rw [← he]
      simpa using hp
    rw [hasKey_of_mem hm] at h
    cases h
  simpa using hne

theorem delKey_append_self {o : Obj} {k : String} {v : JSValue}
    (h : hasKey o k = false) :
    delKey (o ++ [(k, v)]) k = o := by
  rw [delKey, List.filter_append]
  rw [show List.filter (fun p => decide ¬(p.1 = k)) [(k, v)] = [] from by simp]
  rw [List.append_nil, ← delKey, delKey_noop h]

theorem keysOf_setKey_present {o : Obj} {k : String} {v : JSValue}
    (h : hasKey o k = true) :
    keysOf (setKey o k v) = keysOf o := by
  rw [setKey, if_pos h, keysOf, keysOf, List.map_map]
  apply List.map_congr_left
  intro p hp
  by_cases he : p.1 = k
  · simp [he]
  · simp [he]

theorem keysOf_setKey_absent {o : Obj} {k : String} {v : JSValue}
    (h : hasKey o k = false) :
    keysOf (setKey o k v) = keysOf o ++ [k] := by
  rw [setKey, if_neg (by rw [h]; exact Bool.false_ne_true), keysOf, keysOf,
    List.map_append]
  rfl

theorem hasKey_eq_any_keys (o : Obj) (k : String) :
    hasKey o k = (keysOf o).any (fun x => x = k) := by
  rw [hasKey, keysOf]
  induction o with
  | nil => rfl
  | cons p rest ih => simp only [List.any_cons, List.map_cons, ih]

theorem hasKey_congr_keys {a b : Obj} (h : keysOf a = keysOf b) (k : String) :
    hasKey a k = hasKey b k := by
  rw [hasKey_eq_any_keys, hasKey_eq_any_keys, h]

theorem wfKeysObj_mem {o : List (String × JSValue)} {k : String} {v : JSValue}
    (h : JSValue.wfKeysObj o = true) (hm : (k, v) ∈ o) : v.wfKeys = true := by
  induction o with
  | nil => cases hm
  | cons p rest ih =>
      obtain ⟨k0, v0⟩ := p
      rw [JSValue.wfKeysObj, Bool.and_eq_true] at h
      rcases List.mem_cons.mp hm with he | hm'
      · rw [Prod.mk.injEq] at he
        rw [← he.2] at h
        exact h.1
      · exact ih h.2 hm'

theorem wfKeys_obj_parts {o : List (String × JSValue)}
    (h : JSValue.wfKeys (JSValue.obj o) = true) :
    nodupKeys (keysOf o) = true ∧ JSValue.wfKeysObj o = true := by
  rw [JSValue.wfKeys, Bool.and_eq_true] at h
  exact h

/- Reflexivity of `deepEqual` on values whose objects all have
duplicate-free keys (every value the JS runtime builds). -/
mutual

theorem deepEqual_refl : ∀ v : JSValue, v.wfKeys = true → deepEqual v v = true
  | .str _, _ => by simp [deepEqual]
  | .num _, _ => by simp [deepEqual]
  | .bool _, _ => by simp [deepEqual]
  | .null, _ => by simp [deepEqual]
  | .arr l, h => by
      rw [deepEqual]
      exact deepEqualList_refl l (by rw [JSValue.wfKeys] at h; exact h)
  | .obj o, h => by
      rw [deepEqual, Bool.and_eq_true]
      rw [JSValue.wfKeys, Bool.and_eq_true] at h
      constructor
      · exact deepEqualEntries_refl o o h.2
          (fun p hp => getKey_of_mem_nodup h.1 (by rw [← (by rfl : (p.1, p.2) = p)] at hp; exact hp))
      · rw [List.all_eq_true]
        intro p hp
        exact hasKey_of_mem (by rw [← (by rfl : (p.1, p.2) = p)] at hp; exact hp)

theorem deepEqualList_refl :
    ∀ l : List JSValue, JSValue.wfKeysList l = true → deepEqualList l l = true
  | [], _ => by rw [deepEqualList]
  | v :: rest, h => by
      rw [JSValue.wfKeysList, Bool.and_eq_true] at h
      rw [deepEqualList, Bool.and_eq_true]
      exact ⟨deepEqual_refl v h.1, deepEqualList_refl rest h.2⟩

theorem deepEqualEntries_refl :
    ∀ (a b : List (String × JSValue)), JSValue.wfKeysObj a = true →
      (∀ p ∈ a, getKey b p.1 = some p.2) → deepEqualEntries a b = true
  | [], _, _, _ => by rw [deepEqualEntries]
  | (k, v) :: rest, b, h, hg => by
      rw [JSValue.wfKeysObj, Bool.and_eq_true] at h
      rw [deepEqualEntries, Bool.and_eq_true]
      constructor
      · rw [hg (k, v) (List.mem_cons_self _ _)]
        exact deepEqual_refl v h.1
      · exact deepEqualEntries_refl rest b h.2
          (fun p hp => hg p (List.mem_cons_of_mem _ hp))

end

theorem deepEqualEntries_of (a : List (String × JSValue)) (b : Obj)
    (h : ∀ p ∈ a, ∃ w, getKey b p.1 = some w ∧ deepEqual p.2 w = true) :
    deepEqualEntries a b = true := by
  induction a with
  | nil => rw [deepEqualEntries]
  | cons p rest ih =>
      obtain ⟨k, v⟩ := p
      rw [deepEqualEntries, Bool.and_eq_true]
      obtain ⟨w, hw, hd⟩ := h (k, v) (List.mem_cons_self _ _)
      constructor
      · rw [show getKey b (k, v).1 = some w from hw]
        exact hd
      · exact ih (fun q hq => h q (List.mem_cons_of_mem _ hq))

/-- Two objects are deep-equal when they have the same key set and
deep-equal values at every common key (duplicate-free keys on the left). -/
theorem deepEqual_obj_of_getKey (a b : Obj)
    (hna : nodupKeys (keysOf a) = true)
    (hkeys : ∀ k, hasKey a k = hasKey b k)
    (hvals : ∀ k v w, getKey a k = some v → getKey b k = some w → deepEqual v w = true) :
    deepEqual (JSValue.obj a) (JSValue.obj b) = true := by
  rw [deepEqual, Bool.and_eq_true]
  constructor
  · apply deepEqualEntries_of
    intro p hp
    have hga : getKey a p.1 = some p.2 :=
      getKey_of_mem_nodup hna (by rw [← (by rfl : (p.1, p.2) = p)] at hp; exact hp)
    have hb : hasKey b p.1 = true := by
      rw [← hkeys]
      exact hasKey_of_mem (by rw [← (by rfl : (p.1, p.2) = p)] at hp; exact hp)
    obtain ⟨w, hw⟩ := hasKey_true_iff_getKey.mp hb
    exact ⟨w, hw, hvals p.1 p.2 w hga hw⟩
  · rw [List.all_eq_true]
    intro p hp
    rw [hkeys]
    exact hasKey_of_mem (by rw [← (by rfl : (p.1, p.2) = p)] at hp; exact hp)

theorem toObjectBody_event {o : Obj} {x : JSValue}
    (hx : getKey o "event" = some x) (ht : x.truthy = true) :
    toObjectBody o = setKey (delKey o "event") "epcisBody" (JSValue.obj [("event", x)]) := by
  simp only [toObjectBody, hx, truthyO, ht, Bool.true_or, if_true, Option.getD_some]

theorem toObjectBody_eventList {o : Obj} {x : JSValue}
    (he : truthyO (getKey o "event") = false)
    (hx : getKey o "eventList" = some x) (ht : x.truthy = true) :
    toObjectBody o =
      setKey (delKey o "eventList") "epcisBody" (JSValue.obj [("eventList", x)]) := by
  rw [toObjectBody, he, hx]
  simp only [truthyO, ht, Bool.false_or, if_true, Option.getD_some, Bool.false_eq_true,
    if_false]

theorem toObjectBody_none {o : Obj}
    (he : truthyO (getKey o "event") = false)
    (hl : truthyO (getKey o "eventList") = false) :
    toObjectBody o = o := by
  rw [toObjectBody, he, hl]
  simp only [Bool.or_self, Bool.false_eq_true, if_false]

theorem truthyO_of_hasKey_false {o : Obj} {k : String} (h : hasKey o k = false) :
    truthyO (getKey o k) = false := by
  rw [hasKey_eq_false_iff_getKey] at h
  rw [h]
  rfl

/-- A serialized event entity is always a truthy value. -/
theorem toObject_truthy (t : TEvent) : t.toObject.truthy = true := rfl

/-- `toObject` on a document whose `eventList` was never created: with the
toggle on it returns the plain store unchanged, never a body. -/
theorem toObject_toggle_on_no_list {d : EPCISDocument}
    (htog : d.useEventListByDefault = true) (hev : d.eventList = none)
    (h1 : hasKey d.fields "event" = false) (h2 : hasKey d.fields "eventList" = false) :
    d.toObject = some (JSValue.obj d.fields) := by
  rw [EPCISDocument.toObject, hev, htog]
  simp only [if_true]
  rw [toObjectBody_none (truthyO_of_hasKey_false h1) (truthyO_of_hasKey_false h2)]

/-- `toObject` throws exactly when the toggle is off and no `eventList`
exists (the `this.eventList.length` read of `undefined`). -/
theorem toObject_none_iff (d : EPCISDocument) :
    d.toObject = none ↔ (d.useEventListByDefault = false ∧ d.eventList = none) := by
  rw [EPCISDocument.toObject]
  cases htog : d.useEventListByDefault with
  | true =>
      simp only [if_true]
      constructor
      · intro h
        cases h
      · rintro ⟨h, -⟩
        cases h
  | false =>
      simp only [Bool.false_eq_true, if_false]
      cases hev : d.eventList with
      | none => simp
      | some evs =>
          simp only []
          constructor
          · intro h
            by_cases hl : evs.length < 2
            · rw [if_pos hl] at h
              cases h
            · rw [if_neg hl] at h
              cases h
          · rintro ⟨-, h⟩
            cases h

theorem setKey_absent_eq_append {o : Obj} {k : String} {v : JSValue}
    (h : hasKey o k = false) : setKey o k v = o ++ [(k, v)] := by
  rw [setKey, if_neg (by rw [h]; exact Bool.false_ne_true)]

/-- The serialization of a document with an `eventList` that the toggle or
the event count sends down the plural branch. -/
theorem toObject_plural (d : EPCISDocument) (evs : List TEvent)
    (hev : d.eventList = some evs)
    (h1 : hasKey d.fields "event" = false)
    (h2 : hasKey d.fields "eventList" = false)
    (hc : d.useEventListByDefault = true ∨ 2 ≤ evs.length) :
    d.toObject = some (JSValue.obj (setKey d.fields "epcisBody"
      (JSValue.obj [("eventList", JSValue.arr (evs.map TEvent.toObject))]))) := by
  have hbase := @setKey_absent_eq_append d.fields "eventList"
    (JSValue.arr (evs.map TEvent.toObject)) h2
  have hbaseev : getKey (setKey d.fields "eventList"
      (JSValue.arr (evs.map TEvent.toObject))) "event" = none := by
    rw [hbase, getKey_append_single_ne _ _ _ _ (by decide), ← hasKey_eq_false_iff_getKey]
    exact h1
  have hlistcase : toObjectBody (setKey d.fields "eventList"
        (JSValue.arr (evs.map TEvent.toObject)))
      = setKey d.fields "epcisBody"
        (JSValue.obj [("eventList", JSValue.arr (evs.map TEvent.toObject))]) := by
    rw [@toObjectBody_eventList _ (JSValue.arr (evs.map TEvent.toObject))
      (by rw [hbaseev]; rfl) (getKey_setKey_self _ _ _) rfl]
    rw [hbase, delKey_append_self h2]
  rw [EPCISDocument.toObject]
  simp only [hev]
  cases htog : d.useEventListByDefault with
  | true =>
      simp only [if_true]
      rw [hlistcase]
  | false =>
      rcases hc with hc | hc
      · rw [htog] at hc
        cases hc
      · simp only [Bool.false_eq_true, if_false]
        rw [if_neg (by omega)]
        rw [hlistcase]

/-- The serialization of a document holding exactly one event, toggle off:
the singular `event` branch. -/
theorem toObject_single (d : EPCISDocument) (e : TEvent)
    (hev : d.eventList = some [e])
    (h1 : hasKey d.fields "event" = false)
    (h2 : hasKey d.fields "eventList" = false)
    (htog : d.useEventListByDefault = false) :
    d.toObject = some (JSValue.obj (setKey d.fields "epcisBody"
      (JSValue.obj [("event", e.toObject)]))) := by
  rw [EPCISDocument.toObject]
  simp only [hev, htog, Bool.false_eq_true, if_false]
  rw [if_pos (by simp)]
  rw [setKey_absent_eq_append h2, delKey_append_self h2]
  rw [@toObjectBody_event _ e.toObject (getKey_setKey_self _ _ _) (toObject_truthy e)]
  rw [setKey_absent_eq_append h1, delKey_append_self h1]

/-- The serialization of a document holding an empty `eventList`, toggle
off: the singular branch with an empty `event` object. -/
theorem toObject_empty (d : EPCISDocument)
    (hev : d.eventList = some [])
    (h1 : hasKey d.fields "event" = false)
    (h2 : hasKey d.fields "eventList" = false)
    (htog : d.useEventListByDefault = false) :
    d.toObject = some (JSValue.obj (setKey d.fields "epcisBody"
      (JSValue.obj [("event", JSValue.obj [])]))) := by
  rw [EPCISDocument.toObject]
  simp only [hev, htog, Bool.false_eq_true, if_false]
  rw [if_pos (by simp)]
  rw [setKey_absent_eq_append h2, delKey_append_self h2]
  rw [@toObjectBody_event _ (JSValue.obj []) (getKey_setKey_self _ _ _) rfl]
  rw [setKey_absent_eq_append h1, delKey_append_self h1]

theorem getKey_ite_setKey_ne {o : Obj} {P : Prop} [Decidable P] {k k' : String}
    {v : JSValue} (h : ¬(k' = k)) :
    getKey (if P then o else setKey o k v) k' = getKey o k' := by
  by_cases hp : P
  · rw [if_pos hp]
  · rw [if_neg hp, getKey_setKey_ne _ _ _ _ h]

theorem getKey_truthyDefault (o : Obj) (k : String) (v : JSValue) :
    getKey (if truthyO (getKey o k) then o else setKey o k v) k
      = if truthyO (getKey o k) then getKey o k else some v := by
  by_cases h : truthyO (getKey o k) = true
  · rw [if_pos h, if_pos h]
  · rw [if_neg h, if_neg h, getKey_setKey_self]

theorem getKey_defaultedFields_other (s : Settings) (f0 : Obj) (k : String)
    (h1 : ¬(k = "useEventListByDefault")) (h2 : ¬(k = "isA")) (h3 : ¬(k = "@context"))
    (h4 : ¬(k = "schemaVersion")) (h5 : ¬(k = "creationDate")) :
    getKey (defaultedFields s f0) k = getKey f0 k := by
  simp only [defaultedFields]
  rw [getKey_ite_setKey_ne h5, getKey_ite_setKey_ne h4, getKey_ite_setKey_ne h3,
    getKey_setKey_ne _ _ _ _ h2, getKey_delKey_ne _ _ _ h1]

theorem getKey_defaultedFields_isA (s : Settings) (f0 : Obj) :
    getKey (defaultedFields s f0) "isA" = some (JSValue.str "EPCISDocument") := by
  simp only [defaultedFields]
  rw [getKey_ite_setKey_ne (by decide), getKey_ite_setKey_ne (by decide),
    getKey_ite_setKey_ne (by decide), getKey_setKey_self]

theorem getKey_defaultedFields_toggle (s : Settings) (f0 : Obj) :
    getKey (defaultedFields s f0) "useEventListByDefault" = none := by
  simp only [defaultedFields]
  rw [getKey_ite_setKey_ne (by decide), getKey_ite_setKey_ne (by decide),
    getKey_ite_setKey_ne (by decide), getKey_setKey_ne _ _ _ _ (by decide),
    getKey_delKey_self]

theorem getKey_defaultedFields_ctx (s : Settings) (f0 : Obj) :
    getKey (defaultedFields s f0) "@context"
      = if truthyO (getKey f0 "@context") then getKey f0 "@context"
        else some s.EPCISDocumentContext := by
  simp only [defaultedFields]
  have hf2 : getKey (setKey (delKey f0 "useEventListByDefault") "isA"
      (JSValue.str "EPCISDocument")) "@context" = getKey f0 "@context" := by
    rw [getKey_setKey_ne _ _ _ _ (by decide), getKey_delKey_ne _ _ _ (by decide)]
  rw [getKey_ite_setKey_ne (by decide), getKey_ite_setKey_ne (by decide),
    getKey_truthyDefault, hf2]

theorem getKey_defaultedFields_sv (s : Settings) (f0 : Obj) :
    getKey (defaultedFields s f0) "schemaVersion"
      = if truthyO (getKey f0 "schemaVersion") then getKey f0 "schemaVersion"
        else some s.EPCISDocumentSchemaVersion := by
  simp only [defaultedFields]
  have hf3 : getKey (if truthyO (getKey (setKey (delKey f0 "useEventListByDefault")
        "isA" (JSValue.str "EPCISDocument")) "@context")
        then setKey (delKey f0 "useEventListByDefault") "isA" (JSValue.str "EPCISDocument")
        else setKey (setKey (delKey f0 "useEventListByDefault") "isA"
          (JSValue.str "EPCISDocument")) "@context" s.EPCISDocumentContext)
      "schemaVersion" = getKey f0 "schemaVersion" := by
    rw [getKey_ite_setKey_ne (by decide), getKey_setKey_ne _ _ _ _ (by decide),
      getKey_delKey_ne _ _ _ (by decide)]
  rw [getKey_ite_setKey_ne (by decide), getKey_truthyDefault, hf3]

theorem getKey_defaultedFields_cd (s : Settings) (f0 : Obj) :
    getKey (defaultedFields s f0) "creationDate"
      = if truthyO (getKey f0 "creationDate") then getKey f0 "creationDate"
        else some s.nowISO := by
  simp only [defaultedFields]
  have hf4 : getKey (if truthyO (getKey (if truthyO (getKey (setKey (delKey f0
        "useEventListByDefault") "isA" (JSValue.str "EPCISDocument")) "@context")
        then setKey (delKey f0 "useEventListByDefault") "isA" (JSValue.str "EPCISDocument")
        else setKey (setKey (delKey f0 "useEventListByDefault") "isA"
          (JSValue.str "EPCISDocument")) "@context" s.EPCISDocumentContext)
        "schemaVersion")
        then (if truthyO (getKey (setKey (delKey f0 "useEventListByDefault") "isA"
          (JSValue.str "EPCISDocument")) "@context")
          then setKey (delKey f0 "useEventListByDefault") "isA" (JSValue.str "EPCISDocument")
          else setKey (setKey (delKey f0 "useEventListByDefault") "isA"
            (JSValue.str "EPCISDocument")) "@context" s.EPCISDocumentContext)
        else setKey (if truthyO (getKey (setKey (delKey f0 "useEventListByDefault") "isA"
          (JSValue.str "EPCISDocument")) "@context")
          then setKey (delKey f0 "useEventListByDefault") "isA" (JSValue.str "EPCISDocument")
          else setKey (setKey (delKey f0 "useEventListByDefault") "isA"
            (JSValue.str "EPCISDocument")) "@context" s.EPCISDocumentContext)
          "schemaVersion" s.EPCISDocumentSchemaVersion)
      "creationDate" = getKey f0 "creationDate" := by
    rw [getKey_ite_setKey_ne (by decide), getKey_ite_setKey_ne (by decide),
      getKey_setKey_ne _ _ _ _ (by decide), getKey_delKey_ne _ _ _ (by decide)]
  rw [getKey_truthyDefault, hf4]

theorem getKey_constructFields_of_ne (s : Settings) (r : Obj) (k : String)
    (h2 : ¬(k = "isA")) (h6 : ¬(k = "epcisHeader")) :
    getKey (constructFields s r) k = getKey (defaultedFields s r) k := by
  simp only [constructFields]
  cases hh : getKey r "epcisHeader" with
  | none =>
      cases hi : getKey r "isA" with
      | none => rfl
      | some w => exact getKey_setKey_ne _ _ _ _ h2
  | some v =>
      cases hi : getKey r "isA" with
      | none => exact getKey_setKey_ne _ _ _ _ h6
      | some w =>
          rw [getKey_setKey_ne _ _ _ _ h6, getKey_setKey_ne _ _ _ _ h2]

theorem getKey_constructFields_other (s : Settings) (r : Obj) (k : String)
    (h1 : ¬(k = "useEventListByDefault")) (h2 : ¬(k = "isA")) (h3 : ¬(k = "@context"))
    (h4 : ¬(k = "schemaVersion")) (h5 : ¬(k = "creationDate")) (h6 : ¬(k = "epcisHeader")) :
    getKey (constructFields s r) k = getKey r k := by
  rw [getKey_constructFields_of_ne s r k h2 h6,
    getKey_defaultedFields_other s r k h1 h2 h3 h4 h5]

theorem getKey_constructFields_isA (s : Settings) (r : Obj) :
    getKey (constructFields s r) "isA"
      = some ((getKey r "isA").getD (JSValue.str "EPCISDocument")) := by
  simp only [constructFields]
  cases hh : getKey r "epcisHeader" with
  | none =>
      cases hi : getKey r "isA" with
      | none =>
          rw [getKey_defaultedFields_isA]
          rfl
      | some w =>
          rw [getKey_setKey_self]
          rfl
  | some v =>
      cases hi : getKey r "isA" with
      | none =>
          rw [getKey_setKey_ne _ _ _ _ (by decide), getKey_defaultedFields_isA]
          rfl
      | some w =>
          rw [getKey_setKey_ne _ _ _ _ (by decide), getKey_setKey_self]
          rfl

theorem getKey_constructFields_header (s : Settings) (r : Obj) :
    getKey (constructFields s r) "epcisHeader" = getKey r "epcisHeader" := by
  simp only [constructFields]
  cases hh : getKey r "epcisHeader" with
  | none =>
      cases hi : getKey r "isA" with
      | none =>
          rw [getKey_defaultedFields_other s r _ (by decide) (by decide) (by decide)
            (by decide) (by decide), hh]
      | some w =>
          rw [getKey_setKey_ne _ _ _ _ (by decide),
            getKey_defaultedFields_other s r _ (by decide) (by decide) (by decide)
              (by decide) (by decide), hh]
  | some v =>
      cases hi : getKey r "isA" with
      | none => rw [getKey_setKey_self]
      | some w => rw [getKey_setKey_self]

theorem getKey_constructFields_ctx (s : Settings) (r : Obj) :
    getKey (constructFields s r) "@context"
      = if truthyO (getKey r "@context") then getKey r "@context"
        else some s.EPCISDocumentContext := by
  rw [getKey_constructFields_of_ne s r _ (by decide) (by decide),
    getKey_defaultedFields_ctx]

theorem getKey_constructFields_sv (s : Settings) (r : Obj) :
    getKey (constructFields s r) "schemaVersion"
      = if truthyO (getKey r "schemaVersion") then getKey r "schemaVersion"
        else some s.EPCISDocumentSchemaVersion := by
  rw [getKey_constructFields_of_ne s r _ (by decide) (by decide),
    getKey_defaultedFields_sv]

theorem getKey_constructFields_cd (s : Settings) (r : Obj) :
    getKey (constructFields s r) "creationDate"
      = if truthyO (getKey r "creationDate") then getKey r "creationDate"
        else some s.nowISO := by
  rw [getKey_constructFields_of_ne s r _ (by decide) (by decide),
    getKey_defaultedFields_cd]

theorem getKey_constructFields_toggle (s : Settings) (r : Obj) :
    getKey (constructFields s r) "useEventListByDefault" = none := by
  rw [getKey_constructFields_of_ne s r _ (by decide) (by decide),
    getKey_defaultedFields_toggle]

/-- The constructor's value on a raw object once the guard of the model's
domain restriction has passed. -/
theorem ofRaw_eval (s : Settings) (r : Obj)
    (h1 : hasKey r "event" = false) (h2 : hasKey r "eventList" = false) :
    EPCISDocument.ofRaw s (some r) =
      (match getKey r "epcisBody" with
       | none => some ⟨constructFields s r, none, s.useEventListByDefault⟩
       | some bodyv => (parseBody bodyv).map
          (fun el => ⟨constructFields s r, el, s.useEventListByDefault⟩)) := by
  rw [EPCISDocument.ofRaw]
  simp only [Option.getD_some]
  rw [if_neg (by rw [h1, h2]; simp)]

theorem ofRaw_some_guard {s : Settings} {r : Obj} {d : EPCISDocument}
    (hd : EPCISDocument.ofRaw s (some r) = some d) :
    hasKey r "event" = false ∧ hasKey r "eventList" = false := by
  rw [EPCISDocument.ofRaw] at hd
  simp only [Option.getD_some] at hd
  by_cases hg : (hasKey r "event" || hasKey r "eventList") = true
  · rw [if_pos hg] at hd
    cases hd
  · constructor
    · cases he : hasKey r "event" with
      | false => rfl
      | true => exact absurd (by rw [he]; rfl) hg
    · cases he : hasKey r "eventList" with
      | false => rfl
      | true => exact absurd (by rw [he]; simp) hg

/-- Constructing from a raw value and reading the instance back: the
plain store, the toggle, and the `eventList` as `parseBody` yields it. -/
theorem ofRaw_some_elim {s : Settings} {r : Obj} {d : EPCISDocument}
    (hd : EPCISDocument.ofRaw s (some r) = some d) :
    hasKey r "event" = false ∧ hasKey r "eventList" = false ∧
    d.fields = constructFields s r ∧
    d.useEventListByDefault = s.useEventListByDefault ∧
    (getKey r "epcisBody" = none → d.eventList = none) ∧
    (∀ bodyv, getKey r "epcisBody" = some bodyv → parseBody bodyv = some d.eventList) := by
  obtain ⟨h1, h2⟩ := ofRaw_some_guard hd
  rw [ofRaw_eval s r h1 h2] at hd
  refine ⟨h1, h2, ?_⟩
  revert hd
  cases hb : getKey r "epcisBody" with
  | none =>
      intro hd
      have hd2 : some (⟨constructFields s r, none, s.useEventListByDefault⟩
          : EPCISDocument) = some d := hd
      injection hd2 with hd2
      subst hd2
      exact ⟨rfl, rfl, fun _ => rfl, fun bodyv hbv => Option.noConfusion hbv⟩
  | some bodyv =>
      intro hd
      have hd2 : (parseBody bodyv).map
          (fun el => (⟨constructFields s r, el, s.useEventListByDefault⟩
            : EPCISDocument)) = some d := hd
      cases hp : parseBody bodyv with
      | none =>
          rw [hp] at hd2
          cases hd2
      | some el =>
          rw [hp, Option.map_some'] at hd2
          injection hd2 with hd2
          subst hd2
          refine ⟨rfl, rfl, fun hn => Option.noConfusion hn, ?_⟩
          intro bodyv2 hbv
          injection hbv with hbv
          subst hbv
          exact hp

/- Sample values used by witnesses and counterexamples. -/

def sFalse : Settings :=
  ⟨JSValue.str "https://gs1.github.io/EPCIS/epcis-context.jsonld",
    JSValue.str "2.0", JSValue.str "2024-01-01T00:00:00Z", false⟩

def sTrue : Settings :=
  ⟨JSValue.str "https://gs1.github.io/EPCIS/epcis-context.jsonld",
    JSValue.str "2.0", JSValue.str "2024-01-01T00:00:00Z", true⟩

def tev1 : TEvent :=
  ⟨[("isA", JSValue.str "TransactionEvent"), ("action", JSValue.str "ADD")]⟩

/-- C6: for every input value with no resolvable document-level
discriminator, `validateEpcisDocument` fails with `UnknownDocumentType`,
for every structural catalog — hence before, and independently of, any
structural or extension check. -/
theorem unknownDocumentType_of_unresolvable
    (structCheck : String → JSValue → List Violation) (v : JSValue)
    (h : resolveDocType v = none) :
    validateEpcisDocument structCheck v
      = Except.error ValidationError.UnknownDocumentType := by
  simp only [validateEpcisDocument, h]

/-- C6 witness: the test's reject-everything value `{foo: 'bar'}`. -/
theorem unknownDocumentType_of_unresolvable_witness :
    validateEpcisDocument (fun _ _ => []) (JSValue.obj [("foo", JSValue.str "bar")])
      = Except.error ValidationError.UnknownDocumentType :=
  unknownDocumentType_of_unresolvable _ _ (by decide)

/-- C7: `validateAgainstSchema(v, n)` fails with `UnknownSchemaError` and
`ensureFieldSet(v, n)` fails with `UnknownFieldSetError` whenever `n` is
not registered in the respective catalog, for every value `v`. -/
theorem unknown_catalog_name_fails
    (structCheck : String → JSValue → List Violation) (v : JSValue) (n : String) :
    (¬(n ∈ schemaNames) →
      validateAgainstSchema structCheck v n
        = Except.error ValidationError.UnknownSchemaError) ∧
    (¬(n ∈ fieldSetNames) →
      ensureFieldSet v n = Except.error ValidationError.UnknownFieldSetError) := by
  constructor
  · intro h1
    rw [validateAgainstSchema, if_neg h1]
  · intro h2
    simp only [ensureFieldSet, if_neg h2]

/-- C7 witness: the tests' name `invalidName` is in neither catalog and
fails both checks; `EPCISBody` is a registered field set but not a
registered schema, so the schema check alone rejects it. -/
theorem unknown_catalog_name_fails_witness :
    validateAgainstSchema (fun _ _ => []) (JSValue.obj []) "invalidName"
        = Except.error ValidationError.UnknownSchemaError ∧
      ensureFieldSet (JSValue.obj []) "invalidName"
        = Except.error ValidationError.UnknownFieldSetError ∧
      validateAgainstSchema (fun _ _ => []) (JSValue.obj []) "EPCISBody"
        = Except.error ValidationError.UnknownSchemaError :=
  ⟨(unknown_catalog_name_fails (fun _ _ => []) (JSValue.obj []) "invalidName").1
      (by decide),
    (unknown_catalog_name_fails (fun _ _ => []) (JSValue.obj []) "invalidName").2
      (by decide),
    (unknown_catalog_name_fails (fun _ _ => []) (JSValue.obj []) "EPCISBody").1
      (by decide)⟩

/-- C9: with `useEventListByDefault` false, `toObject` throws (returns no
serialization) precisely when the `eventList` field was never created, by
reading `.length` of `undefined`; the zero-events serialization
(`epcisBody.event = {}`) is produced exactly from an existing-but-empty
list. -/
theorem toObject_throws_without_eventList (d : EPCISDocument)
    (htog : d.useEventListByDefault = false) :
    (d.toObject = none ↔ d.eventList = none) ∧
    (d.eventList = some [] → hasKey d.fields "event" = false →
      hasKey d.fields "eventList" = false →
      ∃ out : Obj, d.toObject = some (JSValue.obj out) ∧
        getKey out "epcisBody" = some (JSValue.obj [("event", JSValue.obj [])])) := by
  constructor
  · rw [toObject_none_iff]
    simp [htog]
  · intro hev h1 h2
    exact ⟨_, toObject_empty d hev h1 h2 htog, getKey_setKey_self _ _ _⟩

/-- C9 witness: a fresh toggle-off document throws; after `addEvent` then
`removeEvent` the list exists but is empty and serializes as
`epcisBody.event = {}`. -/
theorem toObject_throws_without_eventList_witness :
    (⟨[("isA", JSValue.str "EPCISDocument")], none, false⟩
        : EPCISDocument).toObject = none ∧
      (⟨[("isA", JSValue.str "EPCISDocument")], some [], false⟩
        : EPCISDocument).toObject
        = some (JSValue.obj [("isA", JSValue.str "EPCISDocument"),
            ("epcisBody", JSValue.obj [("event", JSValue.obj [])])]) := by
  constructor
  · exact (toObject_throws_without_eventList _ rfl).1.mpr rfl
  · rfl

/-- C8: `clear()` deletes the list field entirely: after `clearEventList`
the getter is `undefined` and a toggle-on serialization carries no
`eventList` (and no body at all); after `clearEPCList` the getter is
`undefined` and the serialized event has no `epcList` key. -/
theorem clear_deletes_field (d : EPCISDocument) (t : TEvent)
    (h1 : hasKey d.fields "event" = false) (h2 : hasKey d.fields "eventList" = false)
    (htog : d.useEventListByDefault = true) :
    d.clearEventList.getEventList = none ∧
    d.clearEventList.toObject = some (JSValue.obj d.fields) ∧
    getKey d.fields "eventList" = none ∧
    t.clearEPCList.getEPCList = none ∧
    t.clearEPCList.toObject = JSValue.obj (delKey t.fields "epcList") ∧
    getKey (delKey t.fields "epcList") "epcList" = none := by
  refine ⟨rfl, ?_, ?_, getKey_delKey_self _ _, rfl, getKey_delKey_self _ _⟩
  · exact toObject_toggle_on_no_list htog rfl h1 h2
  · rw [← hasKey_eq_false_iff_getKey]
    exact h2

/-- C8 witness: a one-event document and a one-epc event, cleared. -/
theorem clear_deletes_field_witness :
    (⟨[("isA", JSValue.str "EPCISDocument")], some [tev1], true⟩
        : EPCISDocument).clearEventList.getEventList = none ∧
      (⟨[("isA", JSValue.str "EPCISDocument")], some [tev1], true⟩
        : EPCISDocument).clearEventList.toObject
        = some (JSValue.obj [("isA", JSValue.str "EPCISDocument")]) ∧
      (TEvent.clearEPCList ⟨[("isA", JSValue.str "TransactionEvent"),
          ("epcList", JSValue.arr [JSValue.str "e1"])]⟩).getEPCList = none := by
  obtain ⟨ha, hb, -, -, -, -⟩ := clear_deletes_field
    ⟨[("isA", JSValue.str "EPCISDocument")], some [tev1], true⟩
    ⟨[("isA", JSValue.str "TransactionEvent"),
      ("epcList", JSValue.arr [JSValue.str "e1"])]⟩
    (by decide) (by decide) rfl
  refine ⟨ha, hb, ?_⟩
  obtain ⟨-, -, -, hc, -, -⟩ := clear_deletes_field
    ⟨[("isA", JSValue.str "EPCISDocument")], some [tev1], true⟩
    ⟨[("isA", JSValue.str "TransactionEvent"),
      ("epcList", JSValue.arr [JSValue.str "e1"])]⟩
    (by decide) (by decide) rfl
  exact hc

/-- C3 counterexample: `removeEPC('a')` on the list `['a','b','a']` removes
both structurally-equal occurrences and yields `['b']`, not the claimed
`['b','a']` in which only the first occurrence is gone. -/
theorem removeEPC_counterexample :
    (TEvent.removeEPC ⟨[("isA", JSValue.str "TransactionEvent"),
        ("epcList", JSValue.arr [JSValue.str "a", JSValue.str "b", JSValue.str "a"])]⟩
      (JSValue.str "a")).map TEvent.getEPCList
      = some (some (JSValue.arr [JSValue.str "b"])) ∧
    ¬(some (some (JSValue.arr [JSValue.str "b"]))
      = some (some (JSValue.arr [JSValue.str "b", JSValue.str "a"]))) := by
  constructor
  · decide
  · decide

/-- C3 (amended): `remove(one)` filters with strict equality (`!==`), so it
drops every element of the list equal to the argument — all duplicates at
once, not the first occurrence only; it is a no-op (not an error) when no
element matches and the list field exists; when the list field itself is
absent the call throws.  Shown for `removeEPC` on a `TransactionEvent` and
`removeEvent` on an `EPCISDocument` (event entities compared by value,
which is what `!==` on references does whenever the argument is an element
of the list itself). -/
theorem remove_drops_all_strict_equal (t : TEvent) (epc : JSValue) (l : List JSValue)
    (d : EPCISDocument) (e : TEvent) (evs : List TEvent) :
    (getKey t.fields "epcList" = some (JSValue.arr l) →
      (t.removeEPC epc).map TEvent.getEPCList
        = some (some (JSValue.arr (l.filter (fun x => ¬(x = epc))))) ∧
      ((∀ x ∈ l, ¬(x = epc)) →
        (t.removeEPC epc).map TEvent.getEPCList = some (some (JSValue.arr l)))) ∧
    (getKey t.fields "epcList" = none → t.removeEPC epc = none) ∧
    (d.eventList = some evs →
      (d.removeEvent e).map EPCISDocument.getEventList
        = some (some (evs.filter (fun x => ¬(x = e)))) ∧
      ((∀ x ∈ evs, ¬(x = e)) →
        (d.removeEvent e).map EPCISDocument.getEventList = some (some evs))) ∧
    (d.eventList = none → d.removeEvent e = none) := by
  refine ⟨?_, ?_, ?_, ?_⟩
  · intro hl
    have hrm : t.removeEPC epc = some ⟨setKey t.fields "epcList"
        (JSValue.arr (l.filter (fun x => ¬(x = epc))))⟩ := by
      rw [TEvent.removeEPC, hl]
    constructor
    · rw [hrm, Option.map_some']
      rw [show TEvent.getEPCList ⟨setKey t.fields "epcList"
          (JSValue.arr (l.filter (fun x => ¬(x = epc))))⟩
        = some (JSValue.arr (l.filter (fun x => ¬(x = epc))))
        from getKey_setKey_self _ _ _]
    · intro hno
      have hfe : l.filter (fun x => ¬(x = epc)) = l := by
        rw [List.filter_eq_self]
        intro x hx
        simpa using hno x hx
      rw [hrm, Option.map_some']
      rw [show TEvent.getEPCList ⟨setKey t.fields "epcList"
          (JSValue.arr (l.filter (fun x => ¬(x = epc))))⟩
        = some (JSValue.arr (l.filter (fun x => ¬(x = epc))))
        from getKey_setKey_self _ _ _, hfe]
  · intro hl
    rw [TEvent.removeEPC, hl]
  · intro hl
    have hrm : d.removeEvent e
        = some { d with eventList := some (evs.filter (fun x => ¬(x = e))) } := by
      rw [EPCISDocument.removeEvent, hl]
    constructor
    · rw [hrm, Option.map_some']
      rfl
    · intro hno
      have hfe : evs.filter (fun x => ¬(x = e)) = evs := by
        rw [List.filter_eq_self]
        intro x hx
        simpa using hno x hx
      rw [hrm, Option.map_some']
      rw [show EPCISDocument.getEventList
          { d with eventList := some (evs.filter (fun x => ¬(x = e))) }
        = some (evs.filter (fun x => ¬(x = e))) from rfl, hfe]
  · intro hl
    rw [EPCISDocument.removeEvent, hl]

/-- C3 witness: a two-epc event (remove present / remove absent) and a
one-event document. -/
theorem remove_drops_all_strict_equal_witness :
    ((TEvent.removeEPC ⟨[("epcList",
        JSValue.arr [JSValue.str "a", JSValue.str "b"])]⟩ (JSValue.str "a")).map
      TEvent.getEPCList = some (some (JSValue.arr
        (([JSValue.str "a", JSValue.str "b"]).filter
          (fun x => ¬(x = JSValue.str "a")))))) ∧
    ((⟨[], none, false⟩ : EPCISDocument).removeEvent tev1 = none) := by
  constructor
  · exact ((remove_drops_all_strict_equal
      ⟨[("epcList", JSValue.arr [JSValue.str "a", JSValue.str "b"])]⟩
      (JSValue.str "a") [JSValue.str "a", JSValue.str "b"]
      ⟨[], none, false⟩ tev1 []).1 (by decide)).1
  · exact (remove_drops_all_strict_equal
      ⟨[("epcList", JSValue.arr [JSValue.str "a", JSValue.str "b"])]⟩
      (JSValue.str "a") [JSValue.str "a", JSValue.str "b"]
      ⟨[], none, false⟩ tev1 []).2.2.2 rfl

/-- C10: when a raw `epcisBody` carries both an `event` and an `eventList`,
only the singular event is reconstructed and the whole `eventList` is
silently dropped: the constructed document holds exactly that one event. -/
theorem event_shadows_eventList (s : Settings) (r body : Obj) (d : EPCISDocument)
    (e : TEvent) (evv : JSValue) (l : List JSValue)
    (hb : getKey r "epcisBody" = some (JSValue.obj body))
    (hev : getKey body "event" = some evv)
    (ht : evv.truthy = true)
    (_hel : getKey body "eventList" = some (JSValue.arr l))
    (hoe : objectToEvent evv = some e)
    (hd : EPCISDocument.ofRaw s (some r) = some d) :
    d.eventList = some [e] := by
  obtain ⟨-, -, -, -, -, hbody⟩ := ofRaw_some_elim hd
  have hp := hbody _ hb
  rw [parseBody] at hp
  rw [hev] at hp
  simp only [truthyO, ht, if_true, Option.getD_some, hoe, Option.map_some'] at hp
  injection hp with hp
  exact hp.symm

/-- C10 witness: a raw document whose body carries one singular event and a
two-element `eventList`; the constructed document holds exactly the
singular event. -/
theorem event_shadows_eventList_witness :
    (EPCISDocument.ofRaw sTrue (some [("isA", JSValue.str "EPCISDocument"),
        ("epcisBody", JSValue.obj [
          ("event", JSValue.obj [("isA", JSValue.str "TransactionEvent"),
            ("action", JSValue.str "ADD")]),
          ("eventList", JSValue.arr [
            JSValue.obj [("isA", JSValue.str "ObjectEvent")],
            JSValue.obj [("isA", JSValue.str "ObjectEvent")]])])])).map
      EPCISDocument.eventList = some (some [tev1]) := by
  cases hd : EPCISDocument.ofRaw sTrue (some [("isA", JSValue.str "EPCISDocument"),
      ("epcisBody", JSValue.obj [
        ("event", JSValue.obj [("isA", JSValue.str "TransactionEvent"),
          ("action", JSValue.str "ADD")]),
        ("eventList", JSValue.arr [
          JSValue.obj [("isA", JSValue.str "ObjectEvent")],
          JSValue.obj [("isA", JSValue.str "ObjectEvent")]])])]) with
  | none => exact absurd hd (by decide)
  | some d =>
      rw [Option.map_some']
      rw [event_shadows_eventList sTrue
        [("isA", JSValue.str "EPCISDocument"),
          ("epcisBody", JSValue.obj [
            ("event", JSValue.obj [("isA", JSValue.str "TransactionEvent"),
              ("action", JSValue.str "ADD")]),
            ("eventList", JSValue.arr [
              JSValue.obj [("isA", JSValue.str "ObjectEvent")],
              JSValue.obj [("isA", JSValue.str "ObjectEvent")]])])]
        [("event", JSValue.obj [("isA", JSValue.str "TransactionEvent"),
            ("action", JSValue.str "ADD")]),
          ("eventList", JSValue.arr [
            JSValue.obj [("isA", JSValue.str "ObjectEvent")],
            JSValue.obj [("isA", JSValue.str "ObjectEvent")]])]
        d tev1
        (JSValue.obj [("isA", JSValue.str "TransactionEvent"),
          ("action", JSValue.str "ADD")])
        [JSValue.obj [("isA", JSValue.str "ObjectEvent")],
          JSValue.obj [("isA", JSValue.str "ObjectEvent")]]
        (by decide) (by decide) (by decide) (by decide) (by decide) hd]

/-- C4 counterexample: a raw input whose `@context` is present with the
falsy value `''` does not retain it — the constructor overwrites it with
the settings value, because the guard tests truthiness, not absence. -/
theorem falsy_present_field_overwritten_counterexample :
    (EPCISDocument.ofRaw sTrue (some [("@context", JSValue.str "")])).map
        (fun d => getKey d.fields "@context")
      = some (some sTrue.EPCISDocumentContext) ∧
    ¬(some (some sTrue.EPCISDocumentContext) = some (some (JSValue.str ""))) := by
  constructor
  · decide
  · decide

/-- C4 (amended): `@context`, `schemaVersion` and `creationDate` are
injected from the settings exactly when the corresponding raw field is
absent or present with a JS-falsy value (`''`, `0`, `false`, `null`); a
present truthy value is always retained unchanged. -/
theorem defaulting_follows_truthiness (s : Settings) (r : Obj) (d : EPCISDocument)
    (hd : EPCISDocument.ofRaw s (some r) = some d) :
    (truthyO (getKey r "@context") = true →
      getKey d.fields "@context" = getKey r "@context") ∧
    (truthyO (getKey r "@context") = false →
      getKey d.fields "@context" = some s.EPCISDocumentContext) ∧
    (truthyO (getKey r "schemaVersion") = true →
      getKey d.fields "schemaVersion" = getKey r "schemaVersion") ∧
    (truthyO (getKey r "schemaVersion") = false →
      getKey d.fields "schemaVersion" = some s.EPCISDocumentSchemaVersion) ∧
    (truthyO (getKey r "creationDate") = true →
      getKey d.fields "creationDate" = getKey r "creationDate") ∧
    (truthyO (getKey r "creationDate") = false →
      getKey d.fields "creationDate" = some s.nowISO) := by
  obtain ⟨-, -, hf, -, -, -⟩ := ofRaw_some_elim hd
  rw [hf]
  refine ⟨?_, ?_, ?_, ?_, ?_, ?_⟩
  · intro h
    rw [getKey_constructFields_ctx, if_pos h]
  · intro h
    rw [getKey_constructFields_ctx, if_neg (by rw [h]; exact Bool.false_ne_true)]
  · intro h
    rw [getKey_constructFields_sv, if_pos h]
  · intro h
    rw [getKey_constructFields_sv, if_neg (by rw [h]; exact Bool.false_ne_true)]
  · intro h
    rw [getKey_constructFields_cd, if_pos h]
  · intro h
    rw [getKey_constructFields_cd, if_neg (by rw [h]; exact Bool.false_ne_true)]

/-- C4 witness: one truthy-present field retained, one absent field
defaulted, on a concrete raw input. -/
theorem defaulting_follows_truthiness_witness :
    (EPCISDocument.ofRaw sTrue (some [("@context", JSValue.str "CTX")])).map
        (fun d => (getKey d.fields "@context", getKey d.fields "schemaVersion"))
      = some (some (JSValue.str "CTX"), some sTrue.EPCISDocumentSchemaVersion) := by
  cases hd : EPCISDocument.ofRaw sTrue (some [("@context", JSValue.str "CTX")]) with
  | none => exact absurd hd (by decide)
  | some d =>
      rw [Option.map_some']
      obtain ⟨h1, -, -, h4, -, -⟩ := defaulting_follows_truthiness sTrue _ d hd
      rw [h1 (by decide), h4 (by decide)]
      rfl

/-- C1 counterexample: on a freshly constructed document with the toggle
true and no event ever added, `toObject()` emits neither an
`epcisBody.eventList` nor any `epcisBody` at all — against the claim that
a plural `eventList` field is emitted whenever the toggle is true
regardless of count. -/
theorem body_shape_counterexample :
    ((EPCISDocument.ofRaw sTrue none).bind EPCISDocument.toObject).map
        (fun w =>
          match w with
          | JSValue.obj out => (hasKey out "eventList", hasKey out "epcisBody")
          | _ => (true, true))
      = some (false, false) := by
  decide

/-- C1 (amended): for every document on which the `eventList` field exists
(at least one event was added, possibly later removed), serialization
emits a singular `epcisBody.event` exactly when the toggle is false and
the count is at most one — an empty object standing for zero events — and
emits a plural `epcisBody.eventList` holding every event otherwise; when
the `eventList` field is absent, toggle-off serialization throws and
toggle-on serialization emits neither an `event` nor an `eventList`
field: the output is the plain field store verbatim, so any `epcisBody`
it carries is the one copied from the raw input, never synthesized from
events. -/
theorem body_shape_selection (d : EPCISDocument)
    (h1 : hasKey d.fields "event" = false)
    (h2 : hasKey d.fields "eventList" = false) :
    (∀ evs, d.eventList = some evs →
      ∃ out : Obj, d.toObject = some (JSValue.obj out) ∧
        getKey out "event" = none ∧ getKey out "eventList" = none ∧
        ((d.useEventListByDefault = false ∧ evs.length ≤ 1) →
          getKey out "epcisBody" = some (JSValue.obj [("event",
            evs.head?.elim (JSValue.obj []) TEvent.toObject)])) ∧
        ((d.useEventListByDefault = true ∨ 2 ≤ evs.length) →
          getKey out "epcisBody" = some (JSValue.obj [("eventList",
            JSValue.arr (evs.map TEvent.toObject))]))) ∧
    (d.eventList = none → d.useEventListByDefault = true →
      d.toObject = some (JSValue.obj d.fields) ∧
      getKey d.fields "event" = none ∧ getKey d.fields "eventList" = none) := by
  refine ⟨?_, ?_⟩
  case refine_2 =>
    intro hev htog
    refine ⟨toObject_toggle_on_no_list htog hev h1 h2, ?_, ?_⟩
    · rw [← hasKey_eq_false_iff_getKey]
      exact h1
    · rw [← hasKey_eq_false_iff_getKey]
      exact h2
  intro evs hev
  have hbne : ¬("event" = "epcisBody") := by decide
  have hlne : ¬("eventList" = "epcisBody") := by decide
  cases htog : d.useEventListByDefault with
  | true =>
      refine ⟨_, toObject_plural d evs hev h1 h2 (Or.inl htog), ?_, ?_, ?_, ?_⟩
      · rw [getKey_setKey_ne _ _ _ _ hbne, ← hasKey_eq_false_iff_getKey]
        exact h1
      · rw [getKey_setKey_ne _ _ _ _ hlne, ← hasKey_eq_false_iff_getKey]
        exact h2
      · rintro ⟨hc, -⟩
        cases hc
      · intro _hc
        exact getKey_setKey_self _ _ _
  | false =>
      match evs, hev with
      | [], hev =>
          refine ⟨_, toObject_empty d hev h1 h2 htog, ?_, ?_, ?_, ?_⟩
          · rw [getKey_setKey_ne _ _ _ _ hbne, ← hasKey_eq_false_iff_getKey]
            exact h1
          · rw [getKey_setKey_ne _ _ _ _ hlne, ← hasKey_eq_false_iff_getKey]
            exact h2
          · intro _hc
            exact getKey_setKey_self _ _ _
          · rintro (hc | hc)
            · cases hc
            · simp at hc
      | [e], hev =>
          refine ⟨_, toObject_single d e hev h1 h2 htog, ?_, ?_, ?_, ?_⟩
          · rw [getKey_setKey_ne _ _ _ _ hbne, ← hasKey_eq_false_iff_getKey]
            exact h1
          · rw [getKey_setKey_ne _ _ _ _ hlne, ← hasKey_eq_false_iff_getKey]
            exact h2
          · intro _hc
            exact getKey_setKey_self _ _ _
          · rintro (hc | hc)
            · cases hc
            · simp at hc
      | e1 :: e2 :: rest, hev =>
          refine ⟨_, toObject_plural d (e1 :: e2 :: rest) hev h1 h2
            (Or.inr (by simp)), ?_, ?_, ?_, ?_⟩
          · rw [getKey_setKey_ne _ _ _ _ hbne, ← hasKey_eq_false_iff_getKey]
            exact h1
          · rw [getKey_setKey_ne _ _ _ _ hlne, ← hasKey_eq_false_iff_getKey]
            exact h2
          · rintro ⟨-, hc⟩
            simp at hc
          · intro _hc
            exact getKey_setKey_self _ _ _

/-- C1 witness: a toggle-off document with one event serializes with the
singular `event` body; a toggle-on document with the same event serializes
with the plural `eventList` body; a toggle-on document whose list was
never created serializes as its plain field store, retaining a copied
`epcisBody` without synthesizing `event` or `eventList`. -/
theorem body_shape_selection_witness :
    (∃ out : Obj,
      (⟨[("isA", JSValue.str "EPCISDocument")], some [tev1], false⟩
        : EPCISDocument).toObject = some (JSValue.obj out) ∧
      getKey out "event" = none ∧ getKey out "eventList" = none ∧
      ((false = false ∧ ([tev1].length ≤ 1)) →
        getKey out "epcisBody" = some (JSValue.obj [("event",
          ([tev1].head?).elim (JSValue.obj []) TEvent.toObject)])) ∧
      ((false = true ∨ 2 ≤ [tev1].length) →
        getKey out "epcisBody" = some (JSValue.obj [("eventList",
          JSValue.arr ([tev1].map TEvent.toObject))]))) ∧
    (∃ out : Obj,
      (⟨[("isA", JSValue.str "EPCISDocument")], some [tev1], true⟩
        : EPCISDocument).toObject = some (JSValue.obj out) ∧
      getKey out "event" = none ∧ getKey out "eventList" = none ∧
      ((true = false ∧ ([tev1].length ≤ 1)) →
        getKey out "epcisBody" = some (JSValue.obj [("event",
          ([tev1].head?).elim (JSValue.obj []) TEvent.toObject)])) ∧
      ((true = true ∨ 2 ≤ [tev1].length) →
        getKey out "epcisBody" = some (JSValue.obj [("eventList",
          JSValue.arr ([tev1].map TEvent.toObject))]))) ∧
    ((⟨[("isA", JSValue.str "EPCISDocument"), ("epcisBody", JSValue.obj [])],
        none, true⟩ : EPCISDocument).toObject
      = some (JSValue.obj [("isA", JSValue.str "EPCISDocument"),
          ("epcisBody", JSValue.obj [])]) ∧
      getKey [("isA", JSValue.str "EPCISDocument"),
          ("epcisBody", JSValue.obj [])] "event" = none ∧
      getKey [("isA", JSValue.str "EPCISDocument"),
          ("epcisBody", JSValue.obj [])] "eventList" = none) :=
  ⟨(body_shape_selection ⟨[("isA", JSValue.str "EPCISDocument")], some [tev1], false⟩
      (by decide) (by decide)).1 [tev1] rfl,
    (body_shape_selection ⟨[("isA", JSValue.str "EPCISDocument")], some [tev1], true⟩
      (by decide) (by decide)).1 [tev1] rfl,
    (body_shape_selection ⟨[("isA", JSValue.str "EPCISDocument"),
        ("epcisBody", JSValue.obj [])], none, true⟩
      (by decide) (by decide)).2 rfl rfl⟩

theorem walkNode_obj (nss : List String) (fs path : String) (kvs : Obj) :
    walkNode nss fs path (JSValue.obj kvs) = walkEntries nss fs path kvs := by
  rw [walkNode]

theorem mem_walkEntries_of {nss : List String} {fs path : String}
    {kvs : List (String × JSValue)} {p : String × JSValue} (hp : p ∈ kvs)
    {x : Violation} (hx : x ∈ entryCheck nss fs path p) :
    x ∈ walkEntries nss fs path kvs := by
  induction kvs with
  | nil => cases hp
  | cons q rest ih =>
      rw [walkEntries, List.mem_append]
      rcases List.mem_cons.mp hp with he | hm
      · left
        rw [← he]
        exact hx
      · right
        exact ih hm

theorem mem_walkList_of {nss : List String} {fs path : String}
    {l : List JSValue} {v : JSValue} (hv : v ∈ l)
    {x : Violation} (hx : x ∈ walkNode nss fs path v) :
    x ∈ walkList nss fs path l := by
  induction l with
  | nil => cases hv
  | cons w rest ih =>
      rw [walkList, List.mem_append]
      rcases List.mem_cons.mp hv with he | hm
      · left
        rw [← he]
        exact hx
      · right
        exact ih hm

theorem mem_walkEvents_of {nss : List String} {path : String}
    {l : List JSValue} {v : JSValue} (hv : v ∈ l) {et : String}
    (het : resolveEventType v = some et)
    {x : Violation} (hx : x ∈ walkNode nss et path v) :
    x ∈ walkEvents nss path l := by
  induction l with
  | nil => cases hv
  | cons w rest ih =>
      rw [walkEvents, List.mem_append]
      rcases List.mem_cons.mp hv with he | hm
      · left
        rw [← he, het]
        exact hx
      · right
        exact ih hm

theorem entryCheck_known_obj {nss : List String} {fs path k : String} {kvs : Obj}
    {cfs : String}
    (hk : k ∈ fieldSetOf fs) (hne : ¬(fs = "EPCISBody" ∧ (k = "event" ∨ k = "eventList")))
    (hc : childFS fs k = some cfs) :
    entryCheck nss fs path (k, JSValue.obj kvs)
      = walkNode nss cfs (path ++ "." ++ k) (JSValue.obj kvs) := by
  rw [entryCheck.eq_def]
  dsimp only
  rw [if_pos hk, if_neg hne, hc]

theorem entryCheck_known_arr {nss : List String} {fs path k : String} {l : List JSValue}
    {cfs : String}
    (hk : k ∈ fieldSetOf fs) (hne : ¬(fs = "EPCISBody" ∧ (k = "event" ∨ k = "eventList")))
    (hc : childFS fs k = some cfs) :
    entryCheck nss fs path (k, JSValue.arr l)
      = walkList nss cfs (path ++ "." ++ k) l := by
  rw [entryCheck.eq_def]
  dsimp only
  rw [if_pos hk, if_neg hne, hc]

theorem entryCheck_body_eventList {nss : List String} {path : String} {l : List JSValue} :
    entryCheck nss "EPCISBody" path ("eventList", JSValue.arr l)
      = walkEvents nss (path ++ "." ++ "eventList") l := by
  rw [entryCheck.eq_def]
  dsimp only
  rw [if_pos (by decide), if_pos (by decide)]

theorem entryCheck_foreign_unqual {nss : List String} {fs path k : String} {v : JSValue}
    (hk : ¬(k ∈ fieldSetOf fs)) (hq : qualPattern k = false) :
    entryCheck nss fs path (k, v)
      = [⟨path ++ "." ++ k, "ExtensionViolation: key is not namespace-qualified"⟩] := by
  rw [entryCheck.eq_def]
  dsimp only
  rw [if_neg hk, if_pos hq]

theorem resolveEventType_mem : ∀ {v : JSValue} {et : String},
    resolveEventType v = some et → et ∈ eventTypeNames := by
  intro v et h
  cases v with
  | obj kvs =>
      rw [resolveEventType] at h
      split at h
      · split at h
        · injection h with h
          subst h
          assumption
        · cases h
      · cases h
      · split at h
        · split at h
          · injection h with h
            subst h
            assumption
          · cases h
        · cases h
  | str a => cases h
  | num a => cases h
  | bool a => cases h
  | null => cases h
  | arr a => cases h

/-- C5: a document that reaches an event whose `sensorElementList` entry
carries a foreign key failing the `ns:localName` pattern (for instance
`furtherEventData` instead of `example:furtherEventData`) never validates
successfully: the recursive extension walk records an `ExtensionViolation`
at that nested path, several levels below the event's top level, so any
collect-mode result has `success = false` — whatever the structural
catalog says. -/
theorem nested_unqualified_extension_rejected
    (sc : String → JSValue → List Violation)
    (kvs body evkvs selkvs : Obj) (evs sels : List JSValue)
    (k : String) (w : JSValue) (et : String) (r : ValidationResult)
    (hdoc : resolveDocType (JSValue.obj kvs) = some "EPCISDocument")
    (hbody : getKey kvs "epcisBody" = some (JSValue.obj body))
    (hevl : getKey body "eventList" = some (JSValue.arr evs))
    (hev : JSValue.obj evkvs ∈ evs)
    (het : resolveEventType (JSValue.obj evkvs) = some et)
    (hsel : getKey evkvs "sensorElementList" = some (JSValue.arr sels))
    (hselm : JSValue.obj selkvs ∈ sels)
    (hk : (k, w) ∈ selkvs)
    (hforeign : ¬(k ∈ fieldSetOf "SensorElement"))
    (hqual : qualPattern k = false)
    (hok : validateEpcisDocument sc (JSValue.obj kvs) = Except.ok r) :
    r.success = false := by
  have hetm : et ∈ eventTypeNames := resolveEventType_mem het
  have hfacts : "sensorElementList" ∈ fieldSetOf et ∧
      ¬(et = "EPCISBody" ∧
        ("sensorElementList" = "event" ∨ "sensorElementList" = "eventList")) ∧
      childFS et "sensorElementList" = some "SensorElement" := by
    fin_cases hetm
    · exact ⟨by decide, by decide, by decide⟩
    · exact ⟨by decide, by decide, by decide⟩
    · exact ⟨by decide, by decide, by decide⟩
    · exact ⟨by decide, by decide, by decide⟩
    · exact ⟨by decide, by decide, by decide⟩
  set nss := collectNS ((getKey kvs "@context").getD JSValue.null) with hnss
  have st5 : ∀ path, ∃ x, x ∈ walkNode nss "SensorElement" path (JSValue.obj selkvs) := by
    intro path
    refine ⟨⟨path ++ "." ++ k,
      "ExtensionViolation: key is not namespace-qualified"⟩, ?_⟩
    rw [walkNode_obj]
    exact mem_walkEntries_of hk
      (by rw [entryCheck_foreign_unqual hforeign hqual]; exact List.mem_cons_self _ _)
  have st3 : ∀ path, ∃ x, x ∈ walkNode nss et path (JSValue.obj evkvs) := by
    intro path
    obtain ⟨x, hx⟩ := st5 (path ++ "." ++ "sensorElementList")
    refine ⟨x, ?_⟩
    rw [walkNode_obj]
    refine mem_walkEntries_of (mem_of_getKey hsel) ?_
    rw [entryCheck_known_arr hfacts.1 hfacts.2.1 hfacts.2.2]
    exact mem_walkList_of hselm hx
  have st1 : ∀ path, ∃ x, x ∈ walkNode nss "EPCISBody" path (JSValue.obj body) := by
    intro path
    obtain ⟨x, hx⟩ := st3 (path ++ "." ++ "eventList")
    refine ⟨x, ?_⟩
    rw [walkNode_obj]
    refine mem_walkEntries_of (mem_of_getKey hevl) ?_
    rw [entryCheck_body_eventList]
    exact mem_walkEvents_of hev het hx
  have st0 : ∃ x, x ∈ walkNode nss "EPCISDocument" "$" (JSValue.obj kvs) := by
    obtain ⟨x, hx⟩ := st1 ("$" ++ "." ++ "epcisBody")
    refine ⟨x, ?_⟩
    rw [walkNode_obj]
    refine mem_walkEntries_of (mem_of_getKey hbody) ?_
    rw [@entryCheck_known_obj nss "EPCISDocument" "$" "epcisBody" body "EPCISBody"
      (by decide) (by decide) (by decide)]
    exact hx
  obtain ⟨x, hx⟩ := st0
  revert hok
  simp only [validateEpcisDocument, hdoc]
  cases hm : (bodyEvents (JSValue.obj kvs)).mapM (fun e =>
      match resolveEventType e with
      | some et => some (et, e)
      | none => none) with
  | none =>
      intro hok
      cases hok
  | some evl =>
      intro hok
      injection hok with hok
      subst hok
      show (_ ++ walkNode nss "EPCISDocument" "$" (JSValue.obj kvs)).isEmpty = false
      have hmem : x ∈ (sc "EPCISDocument" (JSValue.obj kvs) ++
          evl.foldr (fun p acc => sc p.1 p.2 ++ acc) [])
            ++ walkNode nss "EPCISDocument" "$" (JSValue.obj kvs) :=
        List.mem_append_right _ hx
      cases hE : ((sc "EPCISDocument" (JSValue.obj kvs) ++
          evl.foldr (fun p acc => sc p.1 p.2 ++ acc) [])
            ++ walkNode nss "EPCISDocument" "$" (JSValue.obj kvs)).isEmpty with
      | false => rfl
      | true =>
          rw [List.isEmpty_iff] at hE
          rw [hE] at hmem
          cases hmem

def c5sel : Obj :=
  [("furtherEventData", JSValue.arr [JSValue.obj [("example:data1", JSValue.str "123.5")]]),
    ("sensorMetadata", JSValue.obj [("time", JSValue.str "2019-04-02T14:55:00.000+01:00")])]

def c5ev : Obj :=
  [("eventID", JSValue.str "test:event:id"),
    ("type", JSValue.str "ObjectEvent"),
    ("action", JSValue.str "OBSERVE"),
    ("sensorElementList", JSValue.arr [JSValue.obj c5sel])]

def c5body : Obj := [("eventList", JSValue.arr [JSValue.obj c5ev])]

def c5kvs : Obj :=
  [("@context", JSValue.arr [JSValue.str "https://gs1.github.io/EPCIS/epcis-context.jsonld",
      JSValue.obj [("example", JSValue.str "http://example.com/")]]),
    ("type", JSValue.str "EPCISDocument"),
    ("schemaVersion", JSValue.str "2.0"),
    ("creationDate", JSValue.str "2005-07-11T11:30:47.0Z"),
    ("epcisBody", JSValue.obj c5body)]

def c5res : ValidationResult :=
  ⟨false, [⟨"$.epcisBody.eventList.sensorElementList.furtherEventData",
    "ExtensionViolation: key is not namespace-qualified"⟩]⟩

/-- C5 witness: the test file's rejected sensor document in miniature —
otherwise valid, with the one unqualified nested key — collects exactly
the nested `ExtensionViolation` and reports `success = false`. -/
theorem nested_unqualified_extension_rejected_witness :
    validateEpcisDocument (fun _ _ => []) (JSValue.obj c5kvs) = Except.ok c5res ∧
      c5res.success = false := by
  have hok : validateEpcisDocument (fun _ _ => []) (JSValue.obj c5kvs)
      = Except.ok c5res := by rfl
  refine ⟨hok, ?_⟩
  exact nested_unqualified_extension_rejected (fun _ _ => []) c5kvs c5body c5ev c5sel
    [JSValue.obj c5ev] [JSValue.obj c5sel] "furtherEventData"
    (JSValue.arr [JSValue.obj [("example:data1", JSValue.str "123.5")]])
    "ObjectEvent" c5res (by decide) (by decide) (by decide) (by decide) (by decide)
    (by decide) (by decide) (by decide) (by decide) (by decide) hok

def c2raw : Obj :=
  [("isA", JSValue.str "EPCISDocument"),
    ("@context", JSValue.str "https://gs1.github.io/EPCIS/epcis-context.jsonld"),
    ("schemaVersion", JSValue.str "2.0"),
    ("creationDate", JSValue.str "2005-07-11T11:30:47+00:00"),
    ("epcisBody", JSValue.obj [("eventList", JSValue.arr
      [JSValue.obj [("isA", JSValue.str "TransactionEvent"),
        ("action", JSValue.str "ADD")]])])]

/-- C2 counterexample: a supported raw document with every defaulted field
present, whose body is a one-element `eventList`: constructed with the
toggle off and immediately serialized, the body comes back as the singular
`epcisBody.event` — the output is not deep-equal to the input. -/
theorem round_trip_counterexample :
    ((EPCISDocument.ofRaw sFalse (some c2raw)).bind EPCISDocument.toObject).map
        (fun out => deepEqual out (JSValue.obj c2raw))
      = some false := by
  decide

theorem deepEqual_arr (a b : List JSValue) :
    deepEqual (JSValue.arr a) (JSValue.arr b) = deepEqualList a b := rfl

theorem deepEqual_singleton_obj {bkey : String} {bv bv' : JSValue}
    (hde : deepEqual bv bv' = true) :
    deepEqual (JSValue.obj [(bkey, bv)]) (JSValue.obj [(bkey, bv')]) = true := by
  apply deepEqual_obj_of_getKey
  · simp [nodupKeys, keysOf]
  · intro k
    rw [hasKey_cons, hasKey_cons]
  · intro k v w hv hw
    rw [getKey_cons] at hv hw
    by_cases hk : bkey = k
    · rw [if_pos hk] at hv hw
      injection hv with hv
      injection hw with hw
      rw [← hv, ← hw]
      exact hde
    · rw [if_neg hk] at hv
      cases hv

/-- The heart of the round trip: the serialized output is the constructed
plain store with the body re-assigned; when the store agrees with the raw
input key-for-key and the new body is deep-equal to the raw body, the
output is deep-equal to the raw input. -/
theorem roundTrip_core (r fields : Obj) (bkey : String) (bv bv' : JSValue)
    (hwfr : (JSValue.obj r).wfKeys = true)
    (hkeys : keysOf fields = keysOf r)
    (hvals : ∀ k, getKey fields k = getKey r k)
    (hbody : getKey r "epcisBody" = some (JSValue.obj [(bkey, bv')]))
    (hde : deepEqual bv bv' = true) :
    deepEqual (JSValue.obj (setKey fields "epcisBody" (JSValue.obj [(bkey, bv)])))
      (JSValue.obj r) = true := by
  obtain ⟨hnod, hwfo⟩ := wfKeys_obj_parts hwfr
  have hhk : hasKey fields "epcisBody" = true := by
    rw [hasKey_congr_keys hkeys]
    exact hasKey_of_mem (mem_of_getKey hbody)
  have hko : keysOf (setKey fields "epcisBody" (JSValue.obj [(bkey, bv)])) = keysOf r := by
    rw [keysOf_setKey_present hhk, hkeys]
  apply deepEqual_obj_of_getKey
  · rw [hko]
    exact hnod
  · intro k
    rw [hasKey_eq_any_keys, hasKey_eq_any_keys, hko]
  · intro k v w hv hw
    by_cases hk : k = "epcisBody"
    · subst hk
      rw [getKey_setKey_self] at hv
      injection hv with hv
      rw [hbody] at hw
      injection hw with hw
      rw [← hv, ← hw]
      exact deepEqual_singleton_obj hde
    · rw [getKey_setKey_ne _ _ _ _ hk, hvals k, hw] at hv
      injection hv with hv
      rw [← hv]
      exact deepEqual_refl w (wfKeysObj_mem hwfo (mem_of_getKey hw))

/-- Under the hypotheses of the round trip (every defaulted field present
and truthy, `isA` present, no stray toggle key), the constructed plain
store has exactly the raw input's keys and values. -/
theorem constructFields_preserves (s : Settings) (r : Obj)
    (hisA : ¬(getKey r "isA" = none))
    (hctx : truthyO (getKey r "@context") = true)
    (hsv : truthyO (getKey r "schemaVersion") = true)
    (hcd : truthyO (getKey r "creationDate") = true)
    (hnu : hasKey r "useEventListByDefault" = false) :
    keysOf (constructFields s r) = keysOf r ∧
    ∀ k, getKey (constructFields s r) k = getKey r k := by
  obtain ⟨va, hva⟩ : ∃ va, getKey r "isA" = some va := by
    cases h : getKey r "isA" with
    | none => exact absurd h hisA
    | some va => exact ⟨va, rfl⟩
  have hhkisA : hasKey r "isA" = true := hasKey_of_mem (mem_of_getKey hva)
  constructor
  · simp only [constructFields, defaultedFields]
    rw [delKey_noop hnu]
    rw [getKey_setKey_ne _ _ _ _ (show ¬("@context" = "isA") from by decide),
      if_pos hctx]
    rw [getKey_setKey_ne _ _ _ _ (show ¬("schemaVersion" = "isA") from by decide),
      if_pos hsv]
    rw [getKey_setKey_ne _ _ _ _ (show ¬("creationDate" = "isA") from by decide),
      if_pos hcd]
    rw [hva]
    have hk2 : keysOf (setKey r "isA" (JSValue.str "EPCISDocument")) = keysOf r :=
      keysOf_setKey_present hhkisA
    have hk6 : keysOf (setKey (setKey r "isA" (JSValue.str "EPCISDocument")) "isA" va)
        = keysOf r := by
      rw [keysOf_setKey_present, hk2]
      rw [hasKey_eq_any_keys, hk2, ← hasKey_eq_any_keys]
      exact hhkisA
    cases hh : getKey r "epcisHeader" with
    | none => exact hk6
    | some v =>
        rw [keysOf_setKey_present, hk6]
        rw [hasKey_eq_any_keys, hk6, ← hasKey_eq_any_keys]
        exact hasKey_of_mem (mem_of_getKey hh)
  · intro k
    by_cases hk1 : k = "isA"
    · subst hk1
      rw [getKey_constructFields_isA, hva]
      rfl
    · by_cases hk2 : k = "epcisHeader"
      · subst hk2
        exact getKey_constructFields_header s r
      · by_cases hk3 : k = "@context"
        · subst hk3
          rw [getKey_constructFields_ctx, if_pos hctx]
        · by_cases hk4 : k = "schemaVersion"
          · subst hk4
            rw [getKey_constructFields_sv, if_pos hsv]
          · by_cases hk5 : k = "creationDate"
            · subst hk5
              rw [getKey_constructFields_cd, if_pos hcd]
            · by_cases hk6 : k = "useEventListByDefault"
              · subst hk6
                rw [getKey_constructFields_toggle]
                rw [hasKey_eq_false_iff_getKey] at hnu
                exact hnu.symm
              · exact getKey_constructFields_other s r k hk6 hk1 hk3 hk4 hk5 hk2

theorem objectToEvent_obj {v : JSValue} {e : TEvent} (h : objectToEvent v = some e) :
    ∃ kvs : Obj, v = JSValue.obj kvs := by
  cases v with
  | obj kvs => exact ⟨kvs, rfl⟩
  | str a => exact Option.noConfusion h
  | num a => exact Option.noConfusion h
  | bool a => exact Option.noConfusion h
  | null => exact Option.noConfusion h
  | arr a => exact Option.noConfusion h

theorem deepEqualList_nil {l : List JSValue} (h : deepEqualList [] l = true) :
    l = [] := by
  cases l with
  | nil => rfl
  | cons b bs => exact Bool.noConfusion h

theorem deepEqualList_length : ∀ {a b : List JSValue},
    deepEqualList a b = true → a.length = b.length
  | [], [], _ => rfl
  | [], _ :: _, h => Bool.noConfusion h
  | _ :: _, [], h => Bool.noConfusion h
  | a :: as, b :: bs, h => by
      have h2 : (deepEqual a b && deepEqualList as bs) = true := h
      rw [Bool.and_eq_true] at h2
      simp only [List.length_cons, deepEqualList_length h2.2]

/-- C2 (amended): constructing a supported raw document and immediately
serializing it returns a value deep-equal to the input, field for field
(unrecognized extension fields included), provided the defaulted fields
(`@context`, `schemaVersion`, `creationDate`) are present with truthy
values, `isA` is present, and the `epcisBody` shape is one the
serialization keeps: a singular `event` with the toggle off, a nonempty
`eventList` with the toggle on, or an `eventList` of two or more events
with the toggle off — the events' reconstructions round-tripping in each
case.  (A one-element `eventList` with the toggle off is re-normalized to
the singular `event` and fails, as the counterexample shows.) -/
theorem round_trip_matching_shape
    (s : Settings) (r : Obj) (d : EPCISDocument) (out : JSValue)
    (hwfr : (JSValue.obj r).wfKeys = true)
    (hisA : ¬(getKey r "isA" = none))
    (hctx : truthyO (getKey r "@context") = true)
    (hsv : truthyO (getKey r "schemaVersion") = true)
    (hcd : truthyO (getKey r "creationDate") = true)
    (hnu : hasKey r "useEventListByDefault" = false)
    (hd : EPCISDocument.ofRaw s (some r) = some d)
    (hout : d.toObject = some out)
    (hshape :
      (s.useEventListByDefault = false ∧
        ∃ ev e, getKey r "epcisBody" = some (JSValue.obj [("event", ev)]) ∧
          objectToEvent ev = some e ∧ deepEqual e.toObject ev = true) ∨
      (s.useEventListByDefault = true ∧
        ∃ l es, getKey r "epcisBody" = some (JSValue.obj [("eventList", JSValue.arr l)]) ∧
          ¬(l = []) ∧ l.mapM objectToEvent = some es ∧
          deepEqualList (es.map TEvent.toObject) l = true) ∨
      (s.useEventListByDefault = false ∧
        ∃ l es, getKey r "epcisBody" = some (JSValue.obj [("eventList", JSValue.arr l)]) ∧
          2 ≤ l.length ∧ l.mapM objectToEvent = some es ∧
          deepEqualList (es.map TEvent.toObject) l = true)) :
    deepEqual out (JSValue.obj r) = true := by
  obtain ⟨h1, h2, hf, htogd, -, hbodyspec⟩ := ofRaw_some_elim hd
  obtain ⟨hK, hV⟩ := constructFields_preserves s r hisA hctx hsv hcd hnu
  have hfe : hasKey d.fields "event" = false := by
    rw [hasKey_eq_false_iff_getKey, hf, hV, ← hasKey_eq_false_iff_getKey]
    exact h1
  have hfl : hasKey d.fields "eventList" = false := by
    rw [hasKey_eq_false_iff_getKey, hf, hV, ← hasKey_eq_false_iff_getKey]
    exact h2
  have hkeys : keysOf d.fields = keysOf r := by
    rw [hf]
    exact hK
  have hvals : ∀ k, getKey d.fields k = getKey r k := by
    intro k
    rw [hf]
    exact hV k
  have listCase : ∀ l es, getKey r "epcisBody"
        = some (JSValue.obj [("eventList", JSValue.arr l)]) →
      ¬(l = []) → l.mapM objectToEvent = some es →
      deepEqualList (es.map TEvent.toObject) l = true →
      (s.useEventListByDefault = true ∨ 2 ≤ es.length) →
      deepEqual out (JSValue.obj r) = true := by
    intro l es hb hlne hm hdel hsel
    have hesne : ¬(es = []) := by
      intro he
      rw [he] at hdel
      exact hlne (deepEqualList_nil hdel)
    have hpb : parseBody (JSValue.obj [("eventList", JSValue.arr l)])
        = some (some es) := by
      rw [parseBody.eq_def]
      dsimp only
      rw [show getKey [("eventList", JSValue.arr l)] "event" = none
        from by rw [getKey_cons]; rfl]
      rw [show getKey [("eventList", JSValue.arr l)] "eventList"
        = some (JSValue.arr l) from by rw [getKey_cons]; rfl]
      simp only [truthyO, JSValue.truthy, if_true, Bool.false_eq_true, if_false]
      rw [hm, Option.map_some']
      cases es with
      | nil => exact absurd rfl hesne
      | cons a as => rfl
    have hEL : d.eventList = some es := by
      have := hbodyspec _ hb
      rw [hpb] at this
      injection this with this
      exact this.symm
    have hone := toObject_plural d es hEL hfe hfl (by rw [htogd]; exact hsel)
    rw [hone] at hout
    injection hout with hout
    rw [← hout]
    refine roundTrip_core r d.fields "eventList" (JSValue.arr (es.map TEvent.toObject))
      (JSValue.arr l) hwfr hkeys hvals hb ?_
    rw [deepEqual_arr]
    exact hdel
  rcases hshape with ⟨htog, ev, e, hb, hoe, hde⟩ | ⟨htog, l, es, hb, hlne, hm, hdel⟩
    | ⟨htog, l, es, hb, hlen, hm, hdel⟩
  · obtain ⟨evf, hevf⟩ := objectToEvent_obj hoe
    subst hevf
    have hpb : parseBody (JSValue.obj [("event", JSValue.obj evf)])
        = some (some [e]) := by
      rw [parseBody.eq_def]
      dsimp only
      rw [show getKey [("event", JSValue.obj evf)] "event" = some (JSValue.obj evf)
        from by rw [getKey_cons]; rfl]
      simp only [truthyO, JSValue.truthy, if_true, Option.getD_some]
      rw [hoe, Option.map_some']
    have hEL : d.eventList = some [e] := by
      have := hbodyspec _ hb
      rw [hpb] at this
      injection this with this
      exact this.symm
    have hone := toObject_single d e hEL hfe hfl (by rw [htogd]; exact htog)
    rw [hone] at hout
    injection hout with hout
    rw [← hout]
    exact roundTrip_core r d.fields "event" e.toObject (JSValue.obj evf)
      hwfr hkeys hvals hb hde
  · exact listCase l es hb hlne hm hdel (Or.inl htog)
  · have hlne : ¬(l = []) := by
      intro he
      rw [he] at hlen
      exact absurd hlen (by decide)
    refine listCase l es hb hlne hm hdel (Or.inr ?_)
    have hlen2 : es.length = l.length := by
      have := deepEqualList_length hdel
      rw [List.length_map] at this
      exact this
    rw [hlen2]
    exact hlen

def c2rawMatch : Obj :=
  [("isA", JSValue.str "EPCISDocument"),
    ("@context", JSValue.str "https://gs1.github.io/EPCIS/epcis-context.jsonld"),
    ("schemaVersion", JSValue.str "2.0"),
    ("creationDate", JSValue.str "2005-07-11T11:30:47+00:00"),
    ("ext1:note", JSValue.str "extension field carried through"),
    ("epcisBody", JSValue.obj [("event", JSValue.obj
      [("isA", JSValue.str "TransactionEvent"), ("action", JSValue.str "ADD")])])]

def c2doc : EPCISDocument := ⟨c2rawMatch, some [tev1], false⟩

/-- C2 witness: a toggle-off raw document with a singular event, every
defaulted field present and an extension field: construct then serialize
is deep-equal to the input. -/
theorem round_trip_matching_shape_witness :
    ((EPCISDocument.ofRaw sFalse (some c2rawMatch)).bind EPCISDocument.toObject).map
      (fun out => deepEqual out (JSValue.obj c2rawMatch)) = some true := by
  have hde : EPCISDocument.ofRaw sFalse (some c2rawMatch) = some c2doc := by decide
  cases hd : EPCISDocument.ofRaw sFalse (some c2rawMatch) with
  | none =>
      rw [hde] at hd
      cases hd
  | some d =>
      have hdd : d = c2doc := by
        rw [hde] at hd
        injection hd with hd
        exact hd.symm
      subst hdd
      cases hout : EPCISDocument.toObject c2doc with
      | none => exact absurd hout (by decide)
      | some out =>
          show (EPCISDocument.toObject c2doc).map
            (fun out => deepEqual out (JSValue.obj c2rawMatch)) = some true
          rw [hout, Option.map_some']
          rw [round_trip_matching_shape sFalse c2rawMatch c2doc out
            (by decide) (by decide) (by decide) (by decide) (by decide) (by decide)
            hde hout
            (Or.inl ⟨rfl, JSValue.obj [("isA", JSValue.str "TransactionEvent"),
                ("action", JSValue.str "ADD")], tev1,
              by decide, by decide, by decide⟩)]
